import Mathlib

/-!
Shallow embedding of the hybrid retrieval engine of the `joo_chatbot`
repository (`src/hybrid_search.py` and the result-conversion part of
`src/korean_vector_store.py`), together with proofs settling the frozen
claims about it.

Modelling conventions:
* Python floats are modelled as rationals (`ℚ`); all score arithmetic in
  the source is a composition of `+`, `*`, `-` and `/` on finite values.
* Python `Document` objects (from `langchain.schema`) carry a text
  (`page_content`) and a metadata dict; metadata dicts are modelled as
  insertion-ordered association lists, which is the observable behaviour
  of Python dicts.
* Third-party library calls that are external to the repository are
  modelled as abstract function-valued fields: the ChromaDB collection
  (`collection.get()` / the embedding model plus `collection.query`) and
  the `rank_bm25.BM25Okapi` scorer.  Repository code that consumes their
  results is translated statement by statement.
* `list.sort(key=..., reverse=True)` in Python is a stable descending
  sort; it is modelled by a stable insertion sort, which computes the
  same list as any stable sort for a total preorder.  `np.argsort` is
  modelled as a stable ascending index sort; NumPy's default quicksort
  leaves the relative order of equal keys unspecified, and no theorem
  below depends on the order of equal BM25 scores.
-/

/-- A metadata value: Python metadata dicts in this repository hold strings
and numbers (page numbers, section labels, distances). -/
inductive Value where
  | str : String → Value
  | num : ℚ → Value
deriving DecidableEq

/-- A metadata dict, modelled as an insertion-ordered association list. -/
abbrev Meta := List (String × Value)

/-- First-match association-list lookup (Python `dict` access / `.get`). -/
def alookup {κ ν : Type} [DecidableEq κ] (key : κ) : List (κ × ν) → Option ν
  | [] => none
  | kv :: rest => if kv.1 = key then some kv.2 else alookup key rest

/-- Python `metadata[key] = v`: overwrite in place if the key exists
(keeping its position), otherwise append at the end.  (`updateVal`, defined
below the dict helpers in the source order of this file, is inlined here
as a plain lambda to keep the definition self-contained.) -/
def metaSet (m : Meta) (key : String) (v : Value) : Meta :=
  if (alookup key m).isSome then
    m.map (fun kv => if kv.1 = key then (kv.1, v) else kv)
  else
    m ++ [(key, v)]

/-- Python `metadata.get(key, default)` where the caller then uses the value
as a number (`hybrid_search.py` line 114: `doc.metadata.get('distance', 0)`).
The store only ever writes numeric values under the key consulted here. -/
def metaGetNumD (m : Meta) (key : String) (d : ℚ) : ℚ :=
  match alookup key m with
  | some (Value.num q) => q
  | _ => d

/-- A `langchain.schema.Document`: a text chunk plus its metadata. -/
structure Document where
  page_content : String
  metadata : Meta
deriving DecidableEq

/-- Default document used only to totalise partial selectors; never reached
under the length-alignment invariants of the pipeline. -/
def defaultDocument : Document := { page_content := "", metadata := [] }

/-! ## Tokenization (`HybridSearch._tokenize`)

`re.findall(r'[가-힣]+|[a-z]+|[0-9]+\.?[0-9]*%?', text.lower())` followed by
stop-word removal.  `re.findall` scans left to right; at each position the
first alternative that matches is taken greedily, and on no match the scan
advances one character. -/

/-- A Hangul syllable, the character class `가`–`힣`. -/
def isHangul (c : Char) : Bool := decide ('가' ≤ c) && decide (c ≤ '힣')

/-- A lower-case Latin letter, the character class `a`–`z`. -/
def isLatinLower (c : Char) : Bool := decide ('a' ≤ c) && decide (c ≤ 'z')

/-- The number alternative `[0-9]+\.?[0-9]*%?`, matched greedily at a
position whose head is a digit: digits, an optional dot, further digits,
an optional percent sign.  Returns the token and the remaining input. -/
def numToken (l : List Char) : List Char × List Char :=
  let intPart := l.takeWhile Char.isDigit
  let r1 := l.dropWhile Char.isDigit
  let mid : List Char × List Char :=
    match r1 with
    | '.' :: rr => ('.' :: rr.takeWhile Char.isDigit, rr.dropWhile Char.isDigit)
    | _ => ([], r1)
  match mid.2 with
  | '%' :: r3 => (intPart ++ mid.1 ++ ['%'], r3)
  | _ => (intPart ++ mid.1, mid.2)

/-- The `re.findall` scan.  `fuel` bounds the recursion; every step consumes
at least one character, so `fuel = l.length` suffices. -/
def scanTok : Nat → List Char → List (List Char)
  | 0, _ => []
  | _ + 1, [] => []
  | fuel + 1, c :: cs =>
    if isHangul c then
      ((c :: cs).takeWhile isHangul) :: scanTok fuel ((c :: cs).dropWhile isHangul)
    else if isLatinLower c then
      ((c :: cs).takeWhile isLatinLower) :: scanTok fuel ((c :: cs).dropWhile isLatinLower)
    else if c.isDigit then
      let tok := numToken (c :: cs)
      tok.1 :: scanTok fuel tok.2
    else
      scanTok fuel cs

/-- The fixed stop-word set of `HybridSearch._tokenize`. -/
def stopwords : List String :=
  ["은", "는", "이", "가", "을", "를", "의", "에", "에서", "로", "으로", "와", "과"]

/-- `HybridSearch._tokenize`: lower-case, extract Hangul/Latin/number runs,
drop stop-words.  (Lean's `Char.toLower` folds ASCII letters; Python's
`str.lower` additionally folds non-ASCII letters, which the character
classes of the regular expression cannot match either way.) -/
def tokenize (text : String) : List String :=
  let lower := text.data.map Char.toLower
  ((scanTok lower.length lower).map (fun t => String.mk t)).filter
    (fun t => !(stopwords.contains t))

/-! ## Stable sorting

Python's `list.sort` is stable; with `reverse=True` it sorts descending and
elements comparing equal keep their original relative order.  `insertStable`
places a new element after every already-placed element `y` with `ge y x`. -/

/-- Insert `x` after the longest prefix of elements `y` with `ge y x`. -/
def insertStable {α : Type} (ge : α → α → Bool) (x : α) : List α → List α
  | [] => [x]
  | y :: ys => if ge y x then y :: insertStable ge x ys else x :: y :: ys

/-- Stable sort: fold the input left to right, inserting each element after
all elements that compare greater-or-equal to it. -/
def stableSort {α : Type} (ge : α → α → Bool) (l : List α) : List α :=
  l.foldl (fun acc x => insertStable ge x acc) []

/-- `np.argsort(scores)`: indices of `scores` sorted by value ascending
(ties in a fixed deterministic order; see the header note). -/
def argsortAsc (scores : List ℚ) : List Nat :=
  stableSort (fun i j => decide (scores.getD i 0 ≤ scores.getD j 0))
    (List.range scores.length)

/-! ## The document store (`korean_vector_store.py`)

The ChromaDB client, the `ko-sroberta` embedding model and the query
expansion feed `collection.query`; the composite `query text ↦ raw nearest
neighbour answer` is external to the retrieval logic and is modelled as an
abstract function.  The conversion of the raw answer into `Document`s
(`KoreanVectorStore.similarity_search`, lines 196–210) is repository code
and is translated below. -/

/-- The answer of `collection.get()`: the full corpus snapshot. -/
structure ChromaGetResult where
  documents : List String
  metadatas : List Meta
  ids : List String

/-- The answer of `collection.query(...)` for a single query embedding:
the `[0]`-indexed rows of the Chroma result dict.  `distances` is `none`
when the result dict has no `'distances'` field. -/
structure ChromaQueryResult where
  documents : List String
  metadatas : List Meta
  distances : Option (List ℚ)

/-- The vector store: the corpus snapshot behind `collection.get()` and the
abstract composite of query expansion, query embedding and
`collection.query` (all external collaborators). -/
structure KoreanVectorStore where
  collectionGet : ChromaGetResult
  collectionQuery : String → Nat → ChromaQueryResult

/-- `KoreanVectorStore.similarity_search`, result-conversion part: zip the
returned documents, metadatas and distances (defaulting the distances row
to all zeros when the result has no `'distances'` field), write the
distance into each metadata dict, and build `Document`s. -/
def KoreanVectorStore.similarity_search (vs : KoreanVectorStore) (query : String)
    (k : Nat) : List Document :=
  let results := vs.collectionQuery query k
  let dists : List ℚ :=
    match results.distances with
    | some ds => ds
    | none => List.replicate results.documents.length 0
  ((results.documents.zip results.metadatas).zip dists).map
    (fun p => { page_content := p.1.1, metadata := metaSet p.1.2 "distance" (Value.num p.2) })

/-! ## The hybrid search engine (`hybrid_search.py`) -/

/-- The state of a constructed `HybridSearch` instance: the wrapped store,
the fusion weights, the corpus snapshot taken at construction, and the
fitted BM25 scorer (`self.bm25.get_scores`). -/
structure HybridSearch where
  vector_store : KoreanVectorStore
  dense_weight : ℚ
  sparse_weight : ℚ
  documents : List String
  metadatas : List Meta
  ids : List String
  bm25 : List String → List ℚ

/-- `HybridSearch.__init__` + `_build_bm25_index`: reject an empty corpus
with a `ValueError`, otherwise snapshot the corpus, tokenize it and fit the
BM25 scorer.  `bm25Lib` models the external `rank_bm25.BM25Okapi`
constructor: tokenized corpus ↦ query tokens ↦ per-document score array. -/
def HybridSearch.build (bm25Lib : List (List String) → List String → List ℚ)
    (vector_store : KoreanVectorStore) (dense_weight : ℚ) : Except String HybridSearch :=
  let all_data := vector_store.collectionGet
  if all_data.documents.isEmpty then
    Except.error "벡터 스토어에 문서가 없습니다."
  else
    Except.ok
      { vector_store := vector_store
        dense_weight := dense_weight
        sparse_weight := 1 - dense_weight
        documents := all_data.documents
        metadatas := all_data.metadatas
        ids := all_data.ids
        bm25 := bm25Lib (all_data.documents.map tokenize) }

/-- The distance-to-similarity transform of `_dense_search`:
`similarity = 1 / (1 + distance)`. -/
def denseSimilarity (distance : ℚ) : ℚ := 1 / (1 + distance)

/-- `HybridSearch._dense_search`: query the store and pair each document
with `denseSimilarity` of its reported distance (default 0 if the document
carries no `'distance'` annotation). -/
def HybridSearch.denseSearch (hs : HybridSearch) (query : String) (k : Nat) :
    List (Document × ℚ) :=
  (hs.vector_store.similarity_search query k).map
    (fun doc => (doc, denseSimilarity (metaGetNumD doc.metadata "distance" 0)))

/-- `HybridSearch._sparse_search`: score the whole corpus with BM25, take
the `k` highest-scoring indices, keep only strictly positive scores and
normalize each kept score `s` to `s / (s + 1)`.  (Indices produced by
`argsortAsc` are always in range of the score array; the `getD` defaults
mirror Python's in-range indexing under the alignment invariant that the
score array matches the corpus length.) -/
def HybridSearch.sparseSearch (hs : HybridSearch) (query : String) (k : Nat) :
    List (Document × ℚ) :=
  let scores := hs.bm25 (tokenize query)
  let top_indices := ((argsortAsc scores).reverse).take k
  top_indices.filterMap (fun idx =>
    let s := scores.getD idx 0
    if 0 < s then
      some ({ page_content := hs.documents.getD idx "",
              metadata := if idx < hs.metadatas.length then hs.metadatas.getD idx [] else [] },
            s / (s + 1))
    else none)

/-- The deduplication key of `_combine_results`: the first 100 characters
of the chunk text (`doc.page_content[:100]`). -/
def dedupKey (doc : Document) : List Char := doc.page_content.data.take 100

/-- An aggregation record of `_combine_results`'s `doc_scores` dict:
the stored document and the two path scores. -/
structure ScoreEntry where
  doc : Document
  dense_score : ℚ
  sparse_score : ℚ
deriving DecidableEq

/-- `dict[key][field] = value` on an association list: rewrite the value of
the entries whose key is `k0` with `g` (the keys of a Python dict are
unique, so at most one entry is rewritten). -/
def updateVal {κ ν : Type} [DecidableEq κ] (k0 : κ) (g : ν → ν) (kv : κ × ν) : κ × ν :=
  if kv.1 = k0 then (kv.1, g kv.2) else kv

/-- One step of the first loop of `_combine_results`: ensure the key of the
dense result is present (inserting `(doc, 0, 0)` at the end if new), then
assign its `dense_score`. -/
def addDense (m : List (List Char × ScoreEntry)) (p : Document × ℚ) :
    List (List Char × ScoreEntry) :=
  let key := dedupKey p.1
  let m' := if (alookup key m).isSome then m
            else m ++ [(key, { doc := p.1, dense_score := 0, sparse_score := 0 })]
  m'.map (updateVal key (fun e => { e with dense_score := p.2 }))

/-- One step of the second loop of `_combine_results`: like `addDense` but
assigning `sparse_score`. -/
def addSparse (m : List (List Char × ScoreEntry)) (p : Document × ℚ) :
    List (List Char × ScoreEntry) :=
  let key := dedupKey p.1
  let m' := if (alookup key m).isSome then m
            else m ++ [(key, { doc := p.1, dense_score := 0, sparse_score := 0 })]
  m'.map (updateVal key (fun e => { e with sparse_score := p.2 }))

/-- The fully aggregated `doc_scores` dict of `_combine_results`: the dense
results processed first, then the sparse results, keys in insertion order. -/
def docScores (dense sparse : List (Document × ℚ)) : List (List Char × ScoreEntry) :=
  sparse.foldl addSparse (dense.foldl addDense [])

/-- The `final_scores` list of `_combine_results`: each aggregated entry,
in dict insertion order, paired with
`dense_weight * dense_score + sparse_weight * sparse_score`. -/
def HybridSearch.finalScores (hs : HybridSearch) (dense sparse : List (Document × ℚ)) :
    List (Document × ℚ) :=
  (docScores dense sparse).map
    (fun kv => (kv.2.doc, hs.dense_weight * kv.2.dense_score + hs.sparse_weight * kv.2.sparse_score))

/-- `final_scores.sort(key=lambda x: x[1], reverse=True)`: stable sort by
score descending. -/
def sortScoresDesc (l : List (Document × ℚ)) : List (Document × ℚ) :=
  stableSort (fun a b => decide (b.2 ≤ a.2)) l

/-- `HybridSearch._combine_results`: aggregate, score, sort descending,
return the documents of the top `k` entries. -/
def HybridSearch.combineResults (hs : HybridSearch) (dense sparse : List (Document × ℚ))
    (k : Nat) : List Document :=
  ((sortScoresDesc (hs.finalScores dense sparse)).take k).map Prod.fst

/-- `HybridSearch.search`: over-fetch `3k` candidates from each path when
`rerank` is set (the default), fuse and return the top `k` documents. -/
def HybridSearch.search (hs : HybridSearch) (query : String) (k : Nat) (rerank : Bool) :
    List Document :=
  let k_candidates := if rerank then k * 3 else k
  hs.combineResults (hs.denseSearch query k_candidates)
    (hs.sparseSearch query k_candidates) k

/-- Observer for the sorted scored list `search` truncates: `search` returns
`((searchScores ...).take k).map Prod.fst`. -/
def HybridSearch.searchScores (hs : HybridSearch) (query : String) (k : Nat)
    (rerank : Bool) : List (Document × ℚ) :=
  let k_candidates := if rerank then k * 3 else k
  sortScoresDesc (hs.finalScores (hs.denseSearch query k_candidates)
    (hs.sparseSearch query k_candidates))

/-- `HybridSearch.search_with_filter`: fetch `2k` fused results, return the
first `k` directly when the filter dict is empty or absent, otherwise keep
only documents whose metadata matches every filter pair and truncate to
`k`. -/
def HybridSearch.searchWithFilter (hs : HybridSearch) (query : String) (k : Nat)
    (filter_dict : Option Meta) : List Document :=
  let all_results := hs.search query (k * 2) true
  match filter_dict with
  | none => all_results.take k
  | some fd =>
    if fd.isEmpty then all_results.take k
    else
      (all_results.filter
        (fun doc => fd.all (fun kv => decide (alookup kv.1 doc.metadata = some kv.2)))).take k

/-! ## Observers for the aggregation: per-key match lists -/

/-- Whether a scored result has deduplication key `key`. -/
def matchesKey (key : List Char) (p : Document × ℚ) : Bool := decide (dedupKey p.1 = key)

/-- The score of the last result in `l` whose key is `key` (0 if none):
the value a Python `dict[key] = score` loop leaves behind. -/
def lastScoreD (l : List (Document × ℚ)) (key : List Char) : ℚ :=
  (((l.filter (matchesKey key)).map Prod.snd).getLast?).getD 0

/-- The maximum score over the results in `l` whose key is `key` (0 if
none): the aggregation the specification describes. -/
def maxScoreD (l : List (Document × ℚ)) (key : List Char) : ℚ :=
  ((l.filter (matchesKey key)).map Prod.snd).foldl max 0

/-- The document of the first result in `l` whose key is `key`: the document
a first-insertion-wins dict loop stores. -/
def firstDocD (l : List (Document × ℚ)) (key : List Char) : Document :=
  match (l.filter (matchesKey key)).head? with
  | some p => p.1
  | none => defaultDocument

/-- `a` occurs strictly before `b` in the list `l`. -/
def precedes {α : Type} (l : List α) (a b : α) : Prop :=
  ∃ i j : Nat, i < j ∧ l.get? i = some a ∧ l.get? j = some b

/-- The claimed dense-order consistency: any two dense candidates returned
by `search` appear in an order consistent with their dense similarities. -/
def denseOrderOK (hs : HybridSearch) (query : String) (k : Nat) : Prop :=
  ∀ a sa b sb, (a, sa) ∈ hs.denseSearch query (k * 3) →
    (b, sb) ∈ hs.denseSearch query (k * 3) →
    precedes (hs.search query k true) a b → sb ≤ sa

/-- The claimed sparse-order consistency: any two sparse candidates returned
by `search` appear in an order consistent with their (normalized, hence also
raw) BM25 scores. -/
def sparseOrderOK (hs : HybridSearch) (query : String) (k : Nat) : Prop :=
  ∀ a sa b sb, (a, sa) ∈ hs.sparseSearch query (k * 3) →
    (b, sb) ∈ hs.sparseSearch query (k * 3) →
    precedes (hs.search query k true) a b → sb ≤ sa

/-! ## Concrete instances

Small concrete stores and engines, used to witness the theorems below and to
exhibit counterexamples.  Each engine value is written as the exact record
`HybridSearch.build` produces, so that reachability from the constructor is
a definitional equality. -/

/-- Two short duplicate-free documents. -/
def dAA : Document := { page_content := "aa", metadata := [] }

/-- A second document with a different text. -/
def dAB : Document := { page_content := "ab", metadata := [] }

/-- Witness store: two Korean chunks; the dense query returns the first at
distance 1. -/
def vsW : KoreanVectorStore :=
  ⟨⟨["인권 교육", "탄소 중립"], [[("page", Value.num 12)], [("page", Value.num 40)]],
    ["doc_0000", "doc_0001"]⟩,
   fun _ _ => ⟨["인권 교육"], [[("page", Value.num 12)]], some [1]⟩⟩

/-- Witness BM25 model: raw scores 3 and 0. -/
def bmW : List (List String) → List String → List ℚ := fun _ _ => [3, 0]

/-- The engine `HybridSearch.build bmW vsW (6/10)` constructs. -/
def hsW : HybridSearch :=
  { vector_store := vsW, dense_weight := 6/10, sparse_weight := 1 - 6/10,
    documents := vsW.collectionGet.documents, metadatas := vsW.collectionGet.metadatas,
    ids := vsW.collectionGet.ids, bm25 := bmW (vsW.collectionGet.documents.map tokenize) }

/-- Tie-break store: corpus inserts "aa" before "bb"; the dense query
returns "bb" (distance 1) then "aa" (distance 3). -/
def vsA : KoreanVectorStore :=
  ⟨⟨["aa", "bb"], [[("page", Value.num 1)], [("page", Value.num 2)]],
    ["doc_0000", "doc_0001"]⟩,
   fun _ _ => ⟨["bb", "aa"], [[("page", Value.num 2)], [("page", Value.num 1)]],
     some [1, 3]⟩⟩

/-- Tie-break BM25 model: raw score 1/3 for "aa", 0 for "bb". -/
def bmA : List (List String) → List String → List ℚ := fun _ _ => [1/3, 0]

/-- The engine `HybridSearch.build bmA vsA (1/2)` constructs. -/
def hsA : HybridSearch :=
  { vector_store := vsA, dense_weight := 1/2, sparse_weight := 1 - 1/2,
    documents := vsA.collectionGet.documents, metadatas := vsA.collectionGet.metadatas,
    ids := vsA.collectionGet.ids, bm25 := bmA (vsA.collectionGet.documents.map tokenize) }

/-- Duplicate-text store: two corpus entries with the same text "aa"; the
dense query returns both, at distances 0 and 1. -/
def vsB : KoreanVectorStore :=
  ⟨⟨["aa", "aa"], [[("page", Value.num 1)], [("page", Value.num 2)]],
    ["doc_0000", "doc_0001"]⟩,
   fun _ _ => ⟨["aa", "aa"], [[("page", Value.num 1)], [("page", Value.num 2)]],
     some [0, 1]⟩⟩

/-- All-zero BM25 model. -/
def bmZ : List (List String) → List String → List ℚ := fun _ _ => [0, 0]

/-- The engine `HybridSearch.build bmZ vsB (6/10)` constructs. -/
def hsB : HybridSearch :=
  { vector_store := vsB, dense_weight := 6/10, sparse_weight := 1 - 6/10,
    documents := vsB.collectionGet.documents, metadatas := vsB.collectionGet.metadatas,
    ids := vsB.collectionGet.ids, bm25 := bmZ (vsB.collectionGet.documents.map tokenize) }

/-- Dedup-collision store: corpus ["aa", "bb", "aa"]; the dense query
returns all three at distances 1/9, 1/4, 3/2 (similarities 9/10, 4/5, 2/5). -/
def vsC : KoreanVectorStore :=
  ⟨⟨["aa", "bb", "aa"],
    [[("page", Value.num 1)], [("page", Value.num 2)], [("page", Value.num 3)]],
    ["doc_0000", "doc_0001", "doc_0002"]⟩,
   fun _ _ => ⟨["aa", "bb", "aa"],
     [[("page", Value.num 1)], [("page", Value.num 2)], [("page", Value.num 3)]],
     some [1/9, 1/4, 3/2]⟩⟩

/-- All-zero BM25 model over three documents. -/
def bmZ3 : List (List String) → List String → List ℚ := fun _ _ => [0, 0, 0]

/-- The engine `HybridSearch.build bmZ3 vsC 1` constructs. -/
def hsC : HybridSearch :=
  { vector_store := vsC, dense_weight := 1, sparse_weight := 1 - 1,
    documents := vsC.collectionGet.documents, metadatas := vsC.collectionGet.metadatas,
    ids := vsC.collectionGet.ids, bm25 := bmZ3 (vsC.collectionGet.documents.map tokenize) }

/-- Distinct-key store for the pure-dense boundary: dense query returns
"aa" (distance 0) and "bb" (distance 1). -/
def vsD : KoreanVectorStore :=
  ⟨⟨["aa", "bb"], [[("page", Value.num 1)], [("page", Value.num 2)]],
    ["doc_0000", "doc_0001"]⟩,
   fun _ _ => ⟨["aa", "bb"], [[("page", Value.num 1)], [("page", Value.num 2)]],
     some [0, 1]⟩⟩

/-- The engine `HybridSearch.build bmZ vsD 1` constructs. -/
def hsD : HybridSearch :=
  { vector_store := vsD, dense_weight := 1, sparse_weight := 1 - 1,
    documents := vsD.collectionGet.documents, metadatas := vsD.collectionGet.metadatas,
    ids := vsD.collectionGet.ids, bm25 := bmZ (vsD.collectionGet.documents.map tokenize) }

/-- Sparse-only store for the pure-sparse boundary: the dense query returns
nothing. -/
def vsE : KoreanVectorStore :=
  ⟨⟨["aa", "bb"], [[("page", Value.num 1)], [("page", Value.num 2)]],
    ["doc_0000", "doc_0001"]⟩,
   fun _ _ => ⟨[], [], some []⟩⟩

/-- Positive distinct BM25 scores 2 and 1. -/
def bmE : List (List String) → List String → List ℚ := fun _ _ => [2, 1]

/-- The engine `HybridSearch.build bmE vsE 0` constructs. -/
def hsE : HybridSearch :=
  { vector_store := vsE, dense_weight := 0, sparse_weight := 1 - 0,
    documents := vsE.collectionGet.documents, metadatas := vsE.collectionGet.metadatas,
    ids := vsE.collectionGet.ids, bm25 := bmE (vsE.collectionGet.documents.map tokenize) }

/-- Store whose raw query result has no `'distances'` field. -/
def vsF : KoreanVectorStore :=
  ⟨⟨["aa"], [[("page", Value.num 1)]], ["doc_0000"]⟩,
   fun _ _ => ⟨["aa"], [[("page", Value.num 1)]], none⟩⟩

/-- Single-document all-zero BM25 model. -/
def bmZ1 : List (List String) → List String → List ℚ := fun _ _ => [0]

/-- The engine `HybridSearch.build bmZ1 vsF (6/10)` constructs. -/
def hsF : HybridSearch :=
  { vector_store := vsF, dense_weight := 6/10, sparse_weight := 1 - 6/10,
    documents := vsF.collectionGet.documents, metadatas := vsF.collectionGet.metadatas,
    ids := vsF.collectionGet.ids, bm25 := bmZ1 (vsF.collectionGet.documents.map tokenize) }

/-- A store holding no documents at all. -/
def vsEmpty : KoreanVectorStore :=
  ⟨⟨[], [], []⟩, fun _ _ => ⟨[], [], none⟩⟩

/-! Documents appearing in the concrete evaluations. -/

/-- "bb" at page 2, annotated with distance 1. -/
def dBB1 : Document :=
  { page_content := "bb", metadata := [("page", Value.num 2), ("distance", Value.num 1)] }

/-- "aa" at page 1, annotated with distance 3. -/
def dAA3 : Document :=
  { page_content := "aa", metadata := [("page", Value.num 1), ("distance", Value.num 3)] }

/-- "aa" at page 1, annotated with distance 0. -/
def dAA0 : Document :=
  { page_content := "aa", metadata := [("page", Value.num 1), ("distance", Value.num 0)] }

/-- "aa" at page 2, annotated with distance 1. -/
def dAA1p2 : Document :=
  { page_content := "aa", metadata := [("page", Value.num 2), ("distance", Value.num 1)] }

/-- "aa" at page 1, annotated with distance 1/9. -/
def dCaa : Document :=
  { page_content := "aa", metadata := [("page", Value.num 1), ("distance", Value.num (1/9))] }

/-- "bb" at page 2, annotated with distance 1/4. -/
def dCbb : Document :=
  { page_content := "bb", metadata := [("page", Value.num 2), ("distance", Value.num (1/4))] }

/-- "aa" at page 3, annotated with distance 3/2. -/
def dCaa3 : Document :=
  { page_content := "aa", metadata := [("page", Value.num 3), ("distance", Value.num (3/2))] }

/-- "aa" at page 1, without a distance annotation. -/
def dEaa : Document := { page_content := "aa", metadata := [("page", Value.num 1)] }

/-- "bb" at page 2, without a distance annotation. -/
def dEbb : Document := { page_content := "bb", metadata := [("page", Value.num 2)] }

/-- The Korean chunk at page 12, without a distance annotation. -/
def docW : Document := { page_content := "인권 교육", metadata := [("page", Value.num 12)] }

/-- The Korean chunk at page 12, annotated with distance 1. -/
def docWd : Document :=
  { page_content := "인권 교육",
    metadata := [("page", Value.num 12), ("distance", Value.num 1)] }

/-! ## Association-list lemmas -/

@[simp] theorem alookup_nil {κ ν : Type} [DecidableEq κ] (key : κ) :
    alookup key ([] : List (κ × ν)) = none := rfl

theorem alookup_cons {κ ν : Type} [DecidableEq κ] (key : κ) (kv : κ × ν) (l : List (κ × ν)) :
    alookup key (kv :: l) = if kv.1 = key then some kv.2 else alookup key l := rfl

theorem alookup_append_of_some {κ ν : Type} [DecidableEq κ] {key : κ} {l : List (κ × ν)}
    {v : ν} (l' : List (κ × ν)) (h : alookup key l = some v) :
    alookup key (l ++ l') = some v := by
  induction l with
  | nil => simp at h
  | cons kv rest ih =>
    by_cases hk : kv.1 = key
    · simp only [alookup_cons, if_pos hk] at h
      simp only [List.cons_append, alookup_cons, if_pos hk]
      exact h
    · simp only [alookup_cons, if_neg hk] at h
      simp only [List.cons_append, alookup_cons, if_neg hk]
      exact ih h

theorem alookup_append_of_none {κ ν : Type} [DecidableEq κ] {key : κ} {l : List (κ × ν)}
    (l' : List (κ × ν)) (h : alookup key l = none) :
    alookup key (l ++ l') = alookup key l' := by
  induction l with
  | nil => simp
  | cons kv rest ih =>
    by_cases hk : kv.1 = key
    · simp [alookup_cons, if_pos hk] at h
    · simp only [alookup_cons, if_neg hk] at h
      simp only [List.cons_append, alookup_cons, if_neg hk]
      exact ih h

theorem alookup_eq_none_iff {κ ν : Type} [DecidableEq κ] (key : κ) (l : List (κ × ν)) :
    alookup key l = none ↔ key ∉ l.map Prod.fst := by
  induction l with
  | nil => simp
  | cons kv rest ih =>
    rw [alookup_cons]
    by_cases hk : kv.1 = key
    · simp [hk]
    · simp [hk, ih, Ne.symm hk]

theorem alookup_isSome_iff {κ ν : Type} [DecidableEq κ] (key : κ) (l : List (κ × ν)) :
    (alookup key l).isSome ↔ key ∈ l.map Prod.fst := by
  rw [Option.isSome_iff_ne_none, Ne, alookup_eq_none_iff, not_not]

theorem alookup_mem {κ ν : Type} [DecidableEq κ] {key : κ} {l : List (κ × ν)} {v : ν}
    (h : alookup key l = some v) : (key, v) ∈ l := by
  induction l with
  | nil => simp at h
  | cons kv rest ih =>
    by_cases hk : kv.1 = key
    · simp only [alookup_cons, if_pos hk, Option.some.injEq] at h
      exact List.mem_cons.mpr (Or.inl (by rw [← hk, ← h]))
    · simp only [alookup_cons, if_neg hk] at h
      exact List.mem_cons_of_mem _ (ih h)

theorem alookup_of_mem_nodup {κ ν : Type} [DecidableEq κ] {key : κ} {l : List (κ × ν)} {v : ν}
    (hnd : (l.map Prod.fst).Nodup) (hmem : (key, v) ∈ l) : alookup key l = some v := by
  induction l with
  | nil => simp at hmem
  | cons kv rest ih =>
    simp only [List.map_cons, List.nodup_cons] at hnd
    rcases List.mem_cons.mp hmem with h | h
    · rw [← h, alookup_cons, if_pos rfl]
    · have hne : kv.1 ≠ key := by
        intro he
        exact hnd.1 (he ▸ (List.mem_map.mpr ⟨(key, v), h, rfl⟩))
      rw [alookup_cons, if_neg hne]
      exact ih hnd.2 h

/-! ## Stable sort lemmas -/

theorem insertStable_perm {α : Type} (ge : α → α → Bool) (x : α) (l : List α) :
    (insertStable ge x l).Perm (x :: l) := by
  induction l with
  | nil => exact List.Perm.refl _
  | cons y ys ih =>
    rw [insertStable]
    by_cases h : ge y x
    · rw [if_pos h]
      exact (ih.cons y).trans (List.Perm.swap x y ys)
    · rw [if_neg h]

theorem foldl_insertStable_perm {α : Type} (ge : α → α → Bool) (l acc : List α) :
    (l.foldl (fun a x => insertStable ge x a) acc).Perm (acc ++ l) := by
  induction l generalizing acc with
  | nil => simp
  | cons x xs ih =>
    simp only [List.foldl_cons]
    refine (ih (insertStable ge x acc)).trans ?_
    exact ((insertStable_perm ge x acc).append_right xs).trans List.perm_middle.symm

theorem stableSort_perm {α : Type} (ge : α → α → Bool) (l : List α) :
    (stableSort ge l).Perm l := by
  simpa using foldl_insertStable_perm ge l []

theorem insertStable_pairwise {α : Type} {ge : α → α → Bool}
    (htot : ∀ a b, ge a b || ge b a)
    (htrans : ∀ a b c, ge a b = true → ge b c = true → ge a c = true)
    (x : α) {l : List α} (hl : l.Pairwise (fun a b => ge a b = true)) :
    (insertStable ge x l).Pairwise (fun a b => ge a b = true) := by
  induction l with
  | nil => simp [insertStable]
  | cons y ys ih =>
    rw [List.pairwise_cons] at hl
    rw [insertStable]
    by_cases h : ge y x
    · rw [if_pos h]
      rw [List.pairwise_cons]
      refine ⟨fun z hz => ?_, ih hl.2⟩
      rcases List.mem_cons.mp ((insertStable_perm ge x ys).mem_iff.mp hz) with hz | hz
      · exact hz ▸ h
      · exact hl.1 z hz
    · rw [if_neg h]
      have hxy : ge x y = true := by
        rcases Bool.or_eq_true_iff.mp (htot y x) with h' | h'
        · exact absurd h' h
        · exact h'
      rw [List.pairwise_cons]
      refine ⟨fun z hz => ?_, List.pairwise_cons.mpr hl⟩
      rcases List.mem_cons.mp hz with hz | hz
      · exact hz ▸ hxy
      · exact htrans x y z hxy (hl.1 z hz)

theorem foldl_insertStable_pairwise {α : Type} {ge : α → α → Bool}
    (htot : ∀ a b, ge a b || ge b a)
    (htrans : ∀ a b c, ge a b = true → ge b c = true → ge a c = true)
    (l : List α) {acc : List α} (hacc : acc.Pairwise (fun a b => ge a b = true)) :
    (l.foldl (fun a x => insertStable ge x a) acc).Pairwise (fun a b => ge a b = true) := by
  induction l generalizing acc with
  | nil => exact hacc
  | cons x xs ih =>
    simp only [List.foldl_cons]
    exact ih (insertStable_pairwise htot htrans x hacc)

theorem stableSort_pairwise {α : Type} {ge : α → α → Bool}
    (htot : ∀ a b, ge a b || ge b a)
    (htrans : ∀ a b c, ge a b = true → ge b c = true → ge a c = true)
    (l : List α) :
    (stableSort ge l).Pairwise (fun a b => ge a b = true) :=
  foldl_insertStable_pairwise htot htrans l List.Pairwise.nil

/-! ## Stability of the descending score sort

Stability is captured by filter-invariance: for every score value `s`, the
sublist of elements with score exactly `s` is unchanged by the sort. -/

theorem insertStable_filter_of_ne {α : Type} (f : α → ℚ) (x : α) (l : List α) (s : ℚ)
    (hx : f x ≠ s) :
    (insertStable (fun a b => decide (f b ≤ f a)) x l).filter (fun a => decide (f a = s)) =
      l.filter (fun a => decide (f a = s)) := by
  induction l with
  | nil => simp [insertStable, hx]
  | cons y ys ih =>
    rw [insertStable]
    by_cases h : (fun a b => decide (f b ≤ f a)) y x
    · rw [if_pos h]
      by_cases hy : f y = s
      · simp [List.filter_cons, hy, ih]
      · simp [List.filter_cons, hy, ih]
    · rw [if_neg h]
      simp [List.filter_cons, hx]

theorem insertStable_filter_of_eq {α : Type} (f : α → ℚ) (x : α) (l : List α) (s : ℚ)
    (hx : f x = s) (hsort : l.Pairwise (fun a b => f b ≤ f a)) :
    (insertStable (fun a b => decide (f b ≤ f a)) x l).filter (fun a => decide (f a = s)) =
      l.filter (fun a => decide (f a = s)) ++ [x] := by
  induction l with
  | nil => simp [insertStable, hx]
  | cons y ys ih =>
    rw [List.pairwise_cons] at hsort
    rw [insertStable]
    by_cases h : (fun a b => decide (f b ≤ f a)) y x
    · rw [if_pos h]
      by_cases hy : f y = s
      · simp [List.filter_cons, hy, ih hsort.2]
      · simp [List.filter_cons, hy, ih hsort.2]
    · rw [if_neg h]
      have hlt : f y < f x := by
        simpa using h
      have hnil : (y :: ys).filter (fun a => decide (f a = s)) = [] := by
        rw [List.filter_eq_nil_iff]
        intro z hz
        rcases List.mem_cons.mp hz with hz | hz
        · subst hz
          simp only [decide_eq_true_eq]
          exact ne_of_lt (hx ▸ hlt)
        · simp only [decide_eq_true_eq]
          exact ne_of_lt (lt_of_le_of_lt (hsort.1 z hz) (hx ▸ hlt))
      rw [List.filter_cons, hnil]
      simp [hx]

/-- The comparator of the descending score sort is total. -/
theorem geScore_total {α : Type} (f : α → ℚ) :
    ∀ a b : α, (fun a b => decide (f b ≤ f a)) a b || (fun a b => decide (f b ≤ f a)) b a := by
  intro a b
  simp only [Bool.or_eq_true, decide_eq_true_eq]
  exact le_total (f b) (f a)

/-- The comparator of the descending score sort is transitive. -/
theorem geScore_trans {α : Type} (f : α → ℚ) :
    ∀ a b c : α, (fun a b => decide (f b ≤ f a)) a b = true →
      (fun a b => decide (f b ≤ f a)) b c = true →
      (fun a b => decide (f b ≤ f a)) a c = true := by
  intro a b c hab hbc
  simp only [decide_eq_true_eq] at *
  exact le_trans hbc hab

theorem stableSort_desc_pairwise {α : Type} (f : α → ℚ) (l : List α) :
    (stableSort (fun a b => decide (f b ≤ f a)) l).Pairwise (fun a b => f b ≤ f a) := by
  have := stableSort_pairwise (geScore_total f) (geScore_trans f) l
  exact this.imp (fun h => by simpa using h)

theorem foldl_insertStable_filter {α : Type} (f : α → ℚ) (l : List α) (s : ℚ) :
    ∀ acc : List α, acc.Pairwise (fun a b => f b ≤ f a) →
    (l.foldl (fun a x => insertStable (fun a b => decide (f b ≤ f a)) x a) acc).filter
        (fun a => decide (f a = s)) =
      acc.filter (fun a => decide (f a = s)) ++ l.filter (fun a => decide (f a = s)) := by
  induction l with
  | nil => intro acc _; simp
  | cons x xs ih =>
    intro acc hacc
    simp only [List.foldl_cons]
    have hacc' : (insertStable (fun a b => decide (f b ≤ f a)) x acc).Pairwise
        (fun a b => f b ≤ f a) := by
      have := insertStable_pairwise (geScore_total f) (geScore_trans f) x
        (hacc.imp (fun h => by simpa using h))
      exact this.imp (fun h => by simpa using h)
    rw [ih _ hacc']
    by_cases hx : f x = s
    · rw [insertStable_filter_of_eq f x acc s hx hacc]
      simp [List.filter_cons, hx]
    · rw [insertStable_filter_of_ne f x acc s hx]
      simp [List.filter_cons, hx]

theorem stableSort_desc_filter {α : Type} (f : α → ℚ) (l : List α) (s : ℚ) :
    (stableSort (fun a b => decide (f b ≤ f a)) l).filter (fun a => decide (f a = s)) =
      l.filter (fun a => decide (f a = s)) := by
  simpa using foldl_insertStable_filter f l s [] List.Pairwise.nil

/-! Specializations to the final fusion sort. -/

theorem sortScoresDesc_perm (l : List (Document × ℚ)) : (sortScoresDesc l).Perm l :=
  stableSort_perm _ l

theorem sortScoresDesc_pairwise (l : List (Document × ℚ)) :
    (sortScoresDesc l).Pairwise (fun a b => b.2 ≤ a.2) :=
  stableSort_desc_pairwise Prod.snd l

theorem sortScoresDesc_filter (l : List (Document × ℚ)) (s : ℚ) :
    (sortScoresDesc l).filter (fun a => decide (a.2 = s)) =
      l.filter (fun a => decide (a.2 = s)) :=
  stableSort_desc_filter Prod.snd l s

/-! ## Lemmas about the `doc_scores` aggregation dict -/

theorem alookup_map_update {κ ν : Type} [DecidableEq κ] (g : ν → ν) (k0 key : κ)
    (m : List (κ × ν)) :
    alookup key (m.map (updateVal k0 g)) =
      if key = k0 then (alookup key m).map g else alookup key m := by
  induction m with
  | nil => simp
  | cons kv rest ih =>
    by_cases h0 : kv.1 = k0
    · by_cases hk : kv.1 = key
      · have hkey : key = k0 := hk ▸ h0
        simp [updateVal, alookup_cons, h0, hk, hkey]
      · simp only [List.map_cons, updateVal, if_pos h0, alookup_cons, if_neg hk, ih]
    · by_cases hk : kv.1 = key
      · have hkey : ¬ key = k0 := fun he => h0 (hk.trans he)
        simp [updateVal, alookup_cons, h0, hk, hkey]
      · simp only [List.map_cons, updateVal, if_neg h0, alookup_cons, if_neg hk, ih]

theorem alookup_insert_new {κ ν : Type} [DecidableEq κ] (m : List (κ × ν)) (k0 key : κ)
    (v0 : ν) :
    alookup key (if (alookup k0 m).isSome then m else m ++ [(k0, v0)]) =
      if key = k0 then some ((alookup k0 m).getD v0) else alookup key m := by
  cases hm : alookup k0 m with
  | some w =>
    rw [if_pos (show (some w).isSome = true from rfl)]
    by_cases hk : key = k0
    · subst hk
      rw [if_pos rfl, Option.getD_some]
      exact hm
    · rw [if_neg hk]
  | none =>
    rw [if_neg (by simp : ¬ ((none : Option ν).isSome = true))]
    by_cases hk : key = k0
    · subst hk
      rw [if_pos rfl, alookup_append_of_none _ hm, alookup_cons, if_pos rfl, Option.getD_none]
    · rw [if_neg hk]
      cases hkey : alookup key m with
      | some w => exact alookup_append_of_some _ hkey
      | none =>
        rw [alookup_append_of_none _ hkey, alookup_cons,
          if_neg (show ¬ ((k0, v0).1 = key) from fun he => hk he.symm)]
        rfl

theorem addDense_alookup (m : List (List Char × ScoreEntry)) (p : Document × ℚ)
    (key : List Char) :
    alookup key (addDense m p) =
      if key = dedupKey p.1 then
        some { doc := ((alookup key m).map ScoreEntry.doc).getD p.1,
               dense_score := p.2,
               sparse_score := ((alookup key m).map ScoreEntry.sparse_score).getD 0 }
      else alookup key m := by
  rw [addDense, alookup_map_update, alookup_insert_new]
  by_cases hk : key = dedupKey p.1
  · subst hk
    cases hm : alookup (dedupKey p.1) m with
    | some e => simp [hm]
    | none => simp [hm]
  · simp [if_neg hk]

theorem addSparse_alookup (m : List (List Char × ScoreEntry)) (p : Document × ℚ)
    (key : List Char) :
    alookup key (addSparse m p) =
      if key = dedupKey p.1 then
        some { doc := ((alookup key m).map ScoreEntry.doc).getD p.1,
               dense_score := ((alookup key m).map ScoreEntry.dense_score).getD 0,
               sparse_score := p.2 }
      else alookup key m := by
  rw [addSparse, alookup_map_update, alookup_insert_new]
  by_cases hk : key = dedupKey p.1
  · subst hk
    cases hm : alookup (dedupKey p.1) m with
    | some e => simp [hm]
    | none => simp [hm]
  · simp [if_neg hk]

theorem lastScoreD_of_nil {l : List (Document × ℚ)} {key : List Char}
    (h : l.filter (matchesKey key) = []) : lastScoreD l key = 0 := by
  simp [lastScoreD, h]

theorem lastScoreD_cons_pos_nil {p : Document × ℚ} {ps : List (Document × ℚ)}
    {key : List Char} (hp : matchesKey key p = true)
    (hps : ps.filter (matchesKey key) = []) : lastScoreD (p :: ps) key = p.2 := by
  simp [lastScoreD, List.filter_cons_of_pos hp, hps]

theorem lastScoreD_cons_pos_ne {p : Document × ℚ} {ps : List (Document × ℚ)}
    {key : List Char} (hp : matchesKey key p = true)
    (hps : ps.filter (matchesKey key) ≠ []) : lastScoreD (p :: ps) key = lastScoreD ps key := by
  rw [lastScoreD, lastScoreD, List.filter_cons_of_pos hp]
  cases hf : ps.filter (matchesKey key) with
  | nil => exact absurd hf hps
  | cons q qs => simp [List.getLast?_cons_cons]

theorem lastScoreD_cons_neg {p : Document × ℚ} {ps : List (Document × ℚ)}
    {key : List Char} (hp : matchesKey key p = false) :
    lastScoreD (p :: ps) key = lastScoreD ps key := by
  rw [lastScoreD, lastScoreD, List.filter_cons_of_neg (by simp [hp])]

theorem firstDocD_cons_pos {p : Document × ℚ} {ps : List (Document × ℚ)}
    {key : List Char} (hp : matchesKey key p = true) : firstDocD (p :: ps) key = p.1 := by
  rw [firstDocD, List.filter_cons_of_pos hp]
  rfl

theorem firstDocD_cons_neg {p : Document × ℚ} {ps : List (Document × ℚ)}
    {key : List Char} (hp : matchesKey key p = false) :
    firstDocD (p :: ps) key = firstDocD ps key := by
  rw [firstDocD, firstDocD, List.filter_cons_of_neg (by simp [hp])]

/-! ## Keys and coherence of the aggregation dict -/

theorem updateVal_fst {κ ν : Type} [DecidableEq κ] (k0 : κ) (g : ν → ν) (kv : κ × ν) :
    (updateVal k0 g kv).1 = kv.1 := by
  rw [updateVal]
  by_cases h : kv.1 = k0
  · rw [if_pos h]
  · rw [if_neg h]

theorem map_updateVal_keys {κ ν : Type} [DecidableEq κ] (k0 : κ) (g : ν → ν)
    (m : List (κ × ν)) : (m.map (updateVal k0 g)).map Prod.fst = m.map Prod.fst := by
  induction m with
  | nil => rfl
  | cons kv rest ih => simp [updateVal_fst, ih]

theorem addDense_keys (m : List (List Char × ScoreEntry)) (p : Document × ℚ) :
    (addDense m p).map Prod.fst =
      if (alookup (dedupKey p.1) m).isSome then m.map Prod.fst
      else m.map Prod.fst ++ [dedupKey p.1] := by
  rw [addDense, map_updateVal_keys]
  by_cases h : (alookup (dedupKey p.1) m).isSome
  · rw [if_pos h, if_pos h]
  · rw [if_neg h, if_neg h, List.map_append]
    rfl

theorem addSparse_keys (m : List (List Char × ScoreEntry)) (p : Document × ℚ) :
    (addSparse m p).map Prod.fst =
      if (alookup (dedupKey p.1) m).isSome then m.map Prod.fst
      else m.map Prod.fst ++ [dedupKey p.1] := by
  rw [addSparse, map_updateVal_keys]
  by_cases h : (alookup (dedupKey p.1) m).isSome
  · rw [if_pos h, if_pos h]
  · rw [if_neg h, if_neg h, List.map_append]
    rfl

theorem keys_insert_nodup (m : List (List Char × ScoreEntry)) (key : List Char)
    (hnd : (m.map Prod.fst).Nodup) (h : ¬ (alookup key m).isSome) :
    (m.map Prod.fst ++ [key]).Nodup := by
  have hmem : key ∉ m.map Prod.fst := by
    rw [← alookup_isSome_iff (ν := ScoreEntry)]
    exact h
  simp [List.nodup_append, hnd, hmem]

theorem addDense_keys_nodup {m : List (List Char × ScoreEntry)} (p : Document × ℚ)
    (hnd : (m.map Prod.fst).Nodup) : ((addDense m p).map Prod.fst).Nodup := by
  rw [addDense_keys]
  by_cases h : (alookup (dedupKey p.1) m).isSome
  · rwa [if_pos h]
  · rw [if_neg h]
    exact keys_insert_nodup m _ hnd h

theorem addSparse_keys_nodup {m : List (List Char × ScoreEntry)} (p : Document × ℚ)
    (hnd : (m.map Prod.fst).Nodup) : ((addSparse m p).map Prod.fst).Nodup := by
  rw [addSparse_keys]
  by_cases h : (alookup (dedupKey p.1) m).isSome
  · rwa [if_pos h]
  · rw [if_neg h]
    exact keys_insert_nodup m _ hnd h

theorem addDense_keys_sub (m : List (List Char × ScoreEntry)) (p : Document × ℚ) :
    m.map Prod.fst ⊆ (addDense m p).map Prod.fst := by
  rw [addDense_keys]
  by_cases h : (alookup (dedupKey p.1) m).isSome
  · rw [if_pos h]
    exact List.Subset.refl _
  · rw [if_neg h]
    exact List.subset_append_left _ _

theorem addSparse_keys_sub (m : List (List Char × ScoreEntry)) (p : Document × ℚ) :
    m.map Prod.fst ⊆ (addSparse m p).map Prod.fst := by
  rw [addSparse_keys]
  by_cases h : (alookup (dedupKey p.1) m).isSome
  · rw [if_pos h]
    exact List.Subset.refl _
  · rw [if_neg h]
    exact List.subset_append_left _ _

theorem addDense_key_mem (m : List (List Char × ScoreEntry)) (p : Document × ℚ) :
    dedupKey p.1 ∈ (addDense m p).map Prod.fst := by
  rw [addDense_keys]
  by_cases h : (alookup (dedupKey p.1) m).isSome
  · rw [if_pos h]
    exact (alookup_isSome_iff _ _).mp h
  · rw [if_neg h]
    exact List.mem_append_right _ (List.mem_singleton.mpr rfl)

theorem addSparse_key_mem (m : List (List Char × ScoreEntry)) (p : Document × ℚ) :
    dedupKey p.1 ∈ (addSparse m p).map Prod.fst := by
  rw [addSparse_keys]
  by_cases h : (alookup (dedupKey p.1) m).isSome
  · rw [if_pos h]
    exact (alookup_isSome_iff _ _).mp h
  · rw [if_neg h]
    exact List.mem_append_right _ (List.mem_singleton.mpr rfl)

theorem addDense_coherent {m : List (List Char × ScoreEntry)} (p : Document × ℚ)
    (hco : ∀ kv ∈ m, dedupKey kv.2.doc = kv.1) :
    ∀ kv ∈ addDense m p, dedupKey kv.2.doc = kv.1 := by
  intro kv hkv
  rw [addDense] at hkv
  rcases List.mem_map.mp hkv with ⟨kv', hkv', hup⟩
  have hco' : dedupKey kv'.2.doc = kv'.1 := by
    by_cases h : (alookup (dedupKey p.1) m).isSome
    · rw [if_pos h] at hkv'
      exact hco kv' hkv'
    · rw [if_neg h] at hkv'
      rcases List.mem_append.mp hkv' with h' | h'
      · exact hco kv' h'
      · rw [List.mem_singleton.mp h']
  rw [← hup, updateVal]
  by_cases h : kv'.1 = dedupKey p.1
  · rw [if_pos h]
    exact hco'
  · rw [if_neg h]
    exact hco'

theorem addSparse_coherent {m : List (List Char × ScoreEntry)} (p : Document × ℚ)
    (hco : ∀ kv ∈ m, dedupKey kv.2.doc = kv.1) :
    ∀ kv ∈ addSparse m p, dedupKey kv.2.doc = kv.1 := by
  intro kv hkv
  rw [addSparse] at hkv
  rcases List.mem_map.mp hkv with ⟨kv', hkv', hup⟩
  have hco' : dedupKey kv'.2.doc = kv'.1 := by
    by_cases h : (alookup (dedupKey p.1) m).isSome
    · rw [if_pos h] at hkv'
      exact hco kv' hkv'
    · rw [if_neg h] at hkv'
      rcases List.mem_append.mp hkv' with h' | h'
      · exact hco kv' h'
      · rw [List.mem_singleton.mp h']
  rw [← hup, updateVal]
  by_cases h : kv'.1 = dedupKey p.1
  · rw [if_pos h]
    exact hco'
  · rw [if_neg h]
    exact hco'

/-! ## The two aggregation folds -/

theorem foldDense_keys_nodup (l : List (Document × ℚ)) :
    ∀ {m : List (List Char × ScoreEntry)}, (m.map Prod.fst).Nodup →
      ((l.foldl addDense m).map Prod.fst).Nodup := by
  induction l with
  | nil => intro m hm; exact hm
  | cons p ps ih => intro m hm; exact ih (addDense_keys_nodup p hm)

theorem foldSparse_keys_nodup (l : List (Document × ℚ)) :
    ∀ {m : List (List Char × ScoreEntry)}, (m.map Prod.fst).Nodup →
      ((l.foldl addSparse m).map Prod.fst).Nodup := by
  induction l with
  | nil => intro m hm; exact hm
  | cons p ps ih => intro m hm; exact ih (addSparse_keys_nodup p hm)

theorem foldDense_keys_sub (l : List (Document × ℚ)) :
    ∀ m : List (List Char × ScoreEntry),
      m.map Prod.fst ⊆ (l.foldl addDense m).map Prod.fst := by
  induction l with
  | nil => intro m; exact List.Subset.refl _
  | cons p ps ih =>
    intro m
    exact (addDense_keys_sub m p).trans (ih (addDense m p))

theorem foldSparse_keys_sub (l : List (Document × ℚ)) :
    ∀ m : List (List Char × ScoreEntry),
      m.map Prod.fst ⊆ (l.foldl addSparse m).map Prod.fst := by
  induction l with
  | nil => intro m; exact List.Subset.refl _
  | cons p ps ih =>
    intro m
    exact (addSparse_keys_sub m p).trans (ih (addSparse m p))

theorem foldDense_key_mem (l : List (Document × ℚ)) :
    ∀ (m : List (List Char × ScoreEntry)) (p : Document × ℚ), p ∈ l →
      dedupKey p.1 ∈ (l.foldl addDense m).map Prod.fst := by
  induction l with
  | nil => intro m p hp; simp at hp
  | cons q qs ih =>
    intro m p hp
    rcases List.mem_cons.mp hp with hp | hp
    · subst hp
      exact foldDense_keys_sub qs (addDense m p) (addDense_key_mem m p)
    · exact ih (addDense m q) p hp

theorem foldSparse_key_mem (l : List (Document × ℚ)) :
    ∀ (m : List (List Char × ScoreEntry)) (p : Document × ℚ), p ∈ l →
      dedupKey p.1 ∈ (l.foldl addSparse m).map Prod.fst := by
  induction l with
  | nil => intro m p hp; simp at hp
  | cons q qs ih =>
    intro m p hp
    rcases List.mem_cons.mp hp with hp | hp
    · subst hp
      exact foldSparse_keys_sub qs (addSparse m p) (addSparse_key_mem m p)
    · exact ih (addSparse m q) p hp

theorem foldDense_coherent (l : List (Document × ℚ)) :
    ∀ {m : List (List Char × ScoreEntry)}, (∀ kv ∈ m, dedupKey kv.2.doc = kv.1) →
      ∀ kv ∈ l.foldl addDense m, dedupKey kv.2.doc = kv.1 := by
  induction l with
  | nil => intro m hm; exact hm
  | cons p ps ih => intro m hm; exact ih (addDense_coherent p hm)

theorem foldSparse_coherent (l : List (Document × ℚ)) :
    ∀ {m : List (List Char × ScoreEntry)}, (∀ kv ∈ m, dedupKey kv.2.doc = kv.1) →
      ∀ kv ∈ l.foldl addSparse m, dedupKey kv.2.doc = kv.1 := by
  induction l with
  | nil => intro m hm; exact hm
  | cons p ps ih => intro m hm; exact ih (addSparse_coherent p hm)

theorem matchesKey_iff {key : List Char} {p : Document × ℚ} :
    matchesKey key p = true ↔ dedupKey p.1 = key := by
  rw [matchesKey, decide_eq_true_eq]

theorem foldDense_alookup_of_nil (l : List (Document × ℚ)) :
    ∀ (m : List (List Char × ScoreEntry)) (key : List Char),
      l.filter (matchesKey key) = [] →
      alookup key (l.foldl addDense m) = alookup key m := by
  induction l with
  | nil => intro m key _; rfl
  | cons p ps ih =>
    intro m key h
    by_cases hp : matchesKey key p = true
    · rw [List.filter_cons_of_pos hp] at h
      exact absurd h (List.cons_ne_nil _ _)
    · rw [List.filter_cons_of_neg (by simpa using hp)] at h
      rw [List.foldl_cons, ih (addDense m p) key h, addDense_alookup,
        if_neg (fun he => hp (matchesKey_iff.mpr he.symm))]

theorem foldSparse_alookup_of_nil (l : List (Document × ℚ)) :
    ∀ (m : List (List Char × ScoreEntry)) (key : List Char),
      l.filter (matchesKey key) = [] →
      alookup key (l.foldl addSparse m) = alookup key m := by
  induction l with
  | nil => intro m key _; rfl
  | cons p ps ih =>
    intro m key h
    by_cases hp : matchesKey key p = true
    · rw [List.filter_cons_of_pos hp] at h
      exact absurd h (List.cons_ne_nil _ _)
    · rw [List.filter_cons_of_neg (by simpa using hp)] at h
      rw [List.foldl_cons, ih (addSparse m p) key h, addSparse_alookup,
        if_neg (fun he => hp (matchesKey_iff.mpr he.symm))]

theorem foldDense_alookup_of_ne_nil (l : List (Document × ℚ)) :
    ∀ (m : List (List Char × ScoreEntry)) (key : List Char),
      l.filter (matchesKey key) ≠ [] →
      alookup key (l.foldl addDense m) =
        some { doc := ((alookup key m).map ScoreEntry.doc).getD (firstDocD l key),
               dense_score := lastScoreD l key,
               sparse_score := ((alookup key m).map ScoreEntry.sparse_score).getD 0 } := by
  induction l with
  | nil => intro m key h; exact absurd rfl h
  | cons p ps ih =>
    intro m key h
    by_cases hp : matchesKey key p = true
    · have hkey : key = dedupKey p.1 := (matchesKey_iff.mp hp).symm
      have haddl : alookup key (addDense m p) =
          some { doc := ((alookup key m).map ScoreEntry.doc).getD p.1,
                 dense_score := p.2,
                 sparse_score := ((alookup key m).map ScoreEntry.sparse_score).getD 0 } := by
        rw [addDense_alookup, if_pos hkey]
      by_cases hps : ps.filter (matchesKey key) = []
      · rw [List.foldl_cons, foldDense_alookup_of_nil ps (addDense m p) key hps, haddl,
          lastScoreD_cons_pos_nil hp hps, firstDocD_cons_pos hp]
      · rw [List.foldl_cons, ih (addDense m p) key hps, haddl,
          lastScoreD_cons_pos_ne hp hps, firstDocD_cons_pos hp]
        cases hm : alookup key m with
        | some e => simp
        | none => simp
    · have hp' : matchesKey key p = false := by simpa using hp
      have hps : ps.filter (matchesKey key) ≠ [] := by
        rwa [List.filter_cons_of_neg (by simp [hp'])] at h
      rw [List.foldl_cons, ih (addDense m p) key hps, addDense_alookup,
        if_neg (fun he => hp (matchesKey_iff.mpr he.symm)),
        lastScoreD_cons_neg hp', firstDocD_cons_neg hp']

theorem foldSparse_alookup_of_ne_nil (l : List (Document × ℚ)) :
    ∀ (m : List (List Char × ScoreEntry)) (key : List Char),
      l.filter (matchesKey key) ≠ [] →
      alookup key (l.foldl addSparse m) =
        some { doc := ((alookup key m).map ScoreEntry.doc).getD (firstDocD l key),
               dense_score := ((alookup key m).map ScoreEntry.dense_score).getD 0,
               sparse_score := lastScoreD l key } := by
  induction l with
  | nil => intro m key h; exact absurd rfl h
  | cons p ps ih =>
    intro m key h
    by_cases hp : matchesKey key p = true
    · have hkey : key = dedupKey p.1 := (matchesKey_iff.mp hp).symm
      have haddl : alookup key (addSparse m p) =
          some { doc := ((alookup key m).map ScoreEntry.doc).getD p.1,
                 dense_score := ((alookup key m).map ScoreEntry.dense_score).getD 0,
                 sparse_score := p.2 } := by
        rw [addSparse_alookup, if_pos hkey]
      by_cases hps : ps.filter (matchesKey key) = []
      · rw [List.foldl_cons, foldSparse_alookup_of_nil ps (addSparse m p) key hps, haddl,
          lastScoreD_cons_pos_nil hp hps, firstDocD_cons_pos hp]
      · rw [List.foldl_cons, ih (addSparse m p) key hps, haddl,
          lastScoreD_cons_pos_ne hp hps, firstDocD_cons_pos hp]
        cases hm : alookup key m with
        | some e => simp
        | none => simp
    · have hp' : matchesKey key p = false := by simpa using hp
      have hps : ps.filter (matchesKey key) ≠ [] := by
        rwa [List.filter_cons_of_neg (by simp [hp'])] at h
      rw [List.foldl_cons, ih (addSparse m p) key hps, addSparse_alookup,
        if_neg (fun he => hp (matchesKey_iff.mpr he.symm)),
        lastScoreD_cons_neg hp', firstDocD_cons_neg hp']

/-! ## Derived facts about `docScores` -/

theorem docScores_keys_nodup (dense sparse : List (Document × ℚ)) :
    ((docScores dense sparse).map Prod.fst).Nodup :=
  foldSparse_keys_nodup sparse (foldDense_keys_nodup dense (by simp))

theorem docScores_coherent (dense sparse : List (Document × ℚ)) :
    ∀ kv ∈ docScores dense sparse, dedupKey kv.2.doc = kv.1 :=
  foldSparse_coherent sparse (foldDense_coherent dense (by simp))

/-- Each aggregated entry carries exactly the last dense score and the last
sparse score written for its key (0 for a path that never saw the key). -/
theorem docScores_alookup_scores {dense sparse : List (Document × ℚ)} {key : List Char}
    {e : ScoreEntry} (h : alookup key (docScores dense sparse) = some e) :
    e.dense_score = lastScoreD dense key ∧ e.sparse_score = lastScoreD sparse key := by
  rw [docScores] at h
  by_cases hsp : sparse.filter (matchesKey key) = []
  · rw [foldSparse_alookup_of_nil sparse _ key hsp] at h
    by_cases hde : dense.filter (matchesKey key) = []
    · rw [foldDense_alookup_of_nil dense [] key hde] at h
      simp [alookup] at h
    · rw [foldDense_alookup_of_ne_nil dense [] key hde] at h
      have he := Option.some.inj h
      rw [← he, lastScoreD_of_nil hsp]
      exact ⟨rfl, rfl⟩
  · rw [foldSparse_alookup_of_ne_nil sparse _ key hsp] at h
    by_cases hde : dense.filter (matchesKey key) = []
    · rw [foldDense_alookup_of_nil dense [] key hde] at h
      have he := Option.some.inj h
      rw [← he, lastScoreD_of_nil hde]
      exact ⟨rfl, rfl⟩
    · rw [foldDense_alookup_of_ne_nil dense [] key hde] at h
      have he := Option.some.inj h
      rw [← he]
      exact ⟨rfl, rfl⟩

/-- With duplicate-free keys, the only result matching the key of a member
is that member itself. -/
theorem filter_key_of_nodup {l : List (Document × ℚ)} {a : Document} {sa : ℚ}
    (hnd : (l.map (fun p => dedupKey p.1)).Nodup) (hmem : (a, sa) ∈ l) :
    l.filter (matchesKey (dedupKey a)) = [(a, sa)] := by
  induction l with
  | nil => simp at hmem
  | cons p ps ih =>
    simp only [List.map_cons, List.nodup_cons] at hnd
    rcases List.mem_cons.mp hmem with h | h
    · have hp : matchesKey (dedupKey a) p = true := by
        rw [matchesKey_iff, ← h]
      rw [List.filter_cons_of_pos hp, ← h]
      have : ps.filter (matchesKey (dedupKey a)) = [] := by
        rw [List.filter_eq_nil_iff]
        intro q hq hmq
        rw [matchesKey_iff] at hmq
        rw [← h] at hnd
        exact hnd.1 (hmq ▸ List.mem_map.mpr ⟨q, hq, rfl⟩)
      rw [this]
    · have hp : matchesKey (dedupKey a) p = false := by
        rw [matchesKey, decide_eq_false_iff_not]
        intro he
        exact hnd.1 (he ▸ List.mem_map.mpr ⟨(a, sa), h, rfl⟩)
      rw [List.filter_cons_of_neg (by simp [hp])]
      exact ih hnd.2 h

/-- With duplicate-free dense keys, the aggregated entry of a dense result
stores that result's document and dense score. -/
theorem docScores_entry_of_dense {dense sparse : List (Document × ℚ)} {a : Document}
    {sa : ℚ} {e : ScoreEntry}
    (hnd : (dense.map (fun p => dedupKey p.1)).Nodup) (hmem : (a, sa) ∈ dense)
    (h : alookup (dedupKey a) (docScores dense sparse) = some e) :
    e.doc = a ∧ e.dense_score = sa := by
  have hfil : dense.filter (matchesKey (dedupKey a)) = [(a, sa)] :=
    filter_key_of_nodup hnd hmem
  have hde : dense.filter (matchesKey (dedupKey a)) ≠ [] := by
    rw [hfil]; exact List.cons_ne_nil _ _
  have hlook : alookup (dedupKey a) (dense.foldl addDense []) =
      some { doc := a, dense_score := sa, sparse_score := 0 } := by
    rw [foldDense_alookup_of_ne_nil dense [] _ hde]
    simp [firstDocD, lastScoreD, hfil, alookup]
  rw [docScores] at h
  by_cases hsp : sparse.filter (matchesKey (dedupKey a)) = []
  · rw [foldSparse_alookup_of_nil sparse _ _ hsp, hlook, Option.some.injEq] at h
    rw [← h]
    exact ⟨rfl, rfl⟩
  · rw [foldSparse_alookup_of_ne_nil sparse _ _ hsp, hlook, Option.some.injEq] at h
    rw [← h]
    exact ⟨rfl, rfl⟩

/-- With duplicate-free sparse keys, the aggregated entry of a key that a
sparse result carries stores that result's sparse score. -/
theorem docScores_entry_of_sparse {dense sparse : List (Document × ℚ)} {b : Document}
    {sb : ℚ} {e : ScoreEntry}
    (hnd : (sparse.map (fun p => dedupKey p.1)).Nodup) (hmem : (b, sb) ∈ sparse)
    (h : alookup (dedupKey b) (docScores dense sparse) = some e) :
    e.sparse_score = sb := by
  have hfil : sparse.filter (matchesKey (dedupKey b)) = [(b, sb)] :=
    filter_key_of_nodup hnd hmem
  have hsp : sparse.filter (matchesKey (dedupKey b)) ≠ [] := by
    rw [hfil]; exact List.cons_ne_nil _ _
  rw [docScores, foldSparse_alookup_of_ne_nil sparse _ _ hsp, Option.some.injEq] at h
  rw [← h]
  show lastScoreD sparse (dedupKey b) = sb
  simp [lastScoreD, hfil]

/-! ## Pipeline glue -/

theorem search_eq_searchScores (hs : HybridSearch) (query : String) (k : Nat) (rerank : Bool) :
    hs.search query k rerank = ((hs.searchScores query k rerank).take k).map Prod.fst := rfl

theorem finalScores_length (hs : HybridSearch) (dense sparse : List (Document × ℚ)) :
    (hs.finalScores dense sparse).length = (docScores dense sparse).length :=
  List.length_map _ _

/-- Every dense candidate key is a key of the aggregation dict. -/
theorem docScores_mem_dense_key (dense sparse : List (Document × ℚ)) (p : Document × ℚ)
    (hp : p ∈ dense) : dedupKey p.1 ∈ (docScores dense sparse).map Prod.fst :=
  foldSparse_keys_sub sparse _ (foldDense_key_mem dense [] p hp)

/-- The aggregation dict has at least as many entries as there are distinct
dense candidate keys. -/
theorem docScores_length_ge (dense sparse : List (Document × ℚ)) :
    (dense.map (fun p => dedupKey p.1)).toFinset.card ≤ (docScores dense sparse).length := by
  have hsub : (dense.map (fun p => dedupKey p.1)).toFinset ⊆
      ((docScores dense sparse).map Prod.fst).toFinset := by
    intro x hx
    rw [List.mem_toFinset] at hx ⊢
    rcases List.mem_map.mp hx with ⟨p, hp, hk⟩
    exact hk ▸ docScores_mem_dense_key dense sparse p hp
  have hcard := Finset.card_le_card hsub
  rwa [List.toFinset_card_of_nodup (docScores_keys_nodup dense sparse),
    List.length_map] at hcard

/-- Every sparse candidate key is a key of the aggregation dict. -/
theorem docScores_mem_sparse_key (dense sparse : List (Document × ℚ)) (p : Document × ℚ)
    (hp : p ∈ sparse) : dedupKey p.1 ∈ (docScores dense sparse).map Prod.fst :=
  foldSparse_key_mem sparse _ p hp

/-- The aggregation dict has at least as many entries as there are distinct
keys among the candidates of either path. -/
theorem docScores_length_ge_union (dense sparse : List (Document × ℚ)) :
    ((dense ++ sparse).map (fun p => dedupKey p.1)).toFinset.card ≤
      (docScores dense sparse).length := by
  have hsub : ((dense ++ sparse).map (fun p => dedupKey p.1)).toFinset ⊆
      ((docScores dense sparse).map Prod.fst).toFinset := by
    intro x hx
    rw [List.mem_toFinset] at hx ⊢
    rcases List.mem_map.mp hx with ⟨p, hp, hk⟩
    rcases List.mem_append.mp hp with hp | hp
    · exact hk ▸ docScores_mem_dense_key dense sparse p hp
    · exact hk ▸ docScores_mem_sparse_key dense sparse p hp
  have hcard := Finset.card_le_card hsub
  rwa [List.toFinset_card_of_nodup (docScores_keys_nodup dense sparse),
    List.length_map] at hcard

/-- The documents of `final_scores` have pairwise distinct dedup keys. -/
theorem finalScores_pairwise_keys (hs : HybridSearch) (dense sparse : List (Document × ℚ)) :
    (hs.finalScores dense sparse).Pairwise (fun a b => dedupKey a.1 ≠ dedupKey b.1) := by
  have hnd := docScores_keys_nodup dense sparse
  rw [List.Nodup, List.pairwise_map] at hnd
  have hpw : (docScores dense sparse).Pairwise
      (fun kv kv' => dedupKey kv.2.doc ≠ dedupKey kv'.2.doc) := by
    refine hnd.imp_of_mem ?_
    intro kv kv' hkv hkv' hne
    rw [docScores_coherent dense sparse kv hkv, docScores_coherent dense sparse kv' hkv']
    exact hne
  rw [HybridSearch.finalScores, List.pairwise_map]
  exact hpw

/-- An element of `final_scores` is an aggregated entry together with its
weighted combined score. -/
theorem finalScores_mem (hs : HybridSearch) {dense sparse : List (Document × ℚ)}
    {p : Document × ℚ} (hp : p ∈ hs.finalScores dense sparse) :
    ∃ kv ∈ docScores dense sparse, kv.2.doc = p.1 ∧
      p.2 = hs.dense_weight * kv.2.dense_score + hs.sparse_weight * kv.2.sparse_score := by
  rw [HybridSearch.finalScores] at hp
  rcases List.mem_map.mp hp with ⟨kv, hkv, he⟩
  exact ⟨kv, hkv, by rw [← he], by rw [← he]⟩

/-! ## Positions in the returned ranking -/

theorem searchScores_pairwise (hs : HybridSearch) (query : String) (k : Nat) (rerank : Bool) :
    (hs.searchScores query k rerank).Pairwise (fun a b => b.2 ≤ a.2) :=
  sortScoresDesc_pairwise _

theorem searchScores_length (hs : HybridSearch) (query : String) (k : Nat) (rerank : Bool) :
    (hs.searchScores query k rerank).length =
      (docScores (hs.denseSearch query (if rerank then k * 3 else k))
        (hs.sparseSearch query (if rerank then k * 3 else k))).length := by
  rw [HybridSearch.searchScores, (sortScoresDesc_perm _).length_eq, finalScores_length]

theorem search_length_eq (hs : HybridSearch) (query : String) (k : Nat) (rerank : Bool) :
    (hs.search query k rerank).length = min k (hs.searchScores query k rerank).length := by
  rw [search_eq_searchScores, List.length_map, List.length_take]

/-- Two documents ordered by `search` correspond to entries of the sorted
score list whose scores are ordered accordingly. -/
theorem search_precedes_scores (hs : HybridSearch) (query : String) (k : Nat) (rerank : Bool)
    {a b : Document} (h : precedes (hs.search query k rerank) a b) :
    ∃ ca cb : ℚ, (a, ca) ∈ hs.searchScores query k rerank ∧
      (b, cb) ∈ hs.searchScores query k rerank ∧ cb ≤ ca := by
  rcases h with ⟨i, j, hij, ha, hb⟩
  rw [search_eq_searchScores hs query k rerank, List.get?_eq_getElem?, List.getElem?_map, ← List.get?_eq_getElem?] at ha hb
  rcases Option.map_eq_some'.mp ha with ⟨pa, hpa, hpa1⟩
  rcases Option.map_eq_some'.mp hb with ⟨pb, hpb, hpb1⟩
  have hjT : j < ((hs.searchScores query k rerank).take k).length := by
    by_contra hle
    rw [List.get?_eq_none.mpr (Nat.le_of_not_lt hle)] at hpb
    exact Option.noConfusion hpb
  have hiT : i < ((hs.searchScores query k rerank).take k).length := lt_trans hij hjT
  have hgeta : ((hs.searchScores query k rerank).take k).get ⟨i, hiT⟩ = pa := by
    rw [← Option.some_inj, ← List.get?_eq_get hiT]
    exact hpa
  have hgetb : ((hs.searchScores query k rerank).take k).get ⟨j, hjT⟩ = pb := by
    rw [← Option.some_inj, ← List.get?_eq_get hjT]
    exact hpb
  have hpw : ((hs.searchScores query k rerank).take k).Pairwise (fun x y => y.2 ≤ x.2) :=
    (searchScores_pairwise hs query k rerank).sublist (List.take_sublist _ _)
  have hord : pb.2 ≤ pa.2 := by
    have := List.pairwise_iff_get.mp hpw ⟨i, hiT⟩ ⟨j, hjT⟩ hij
    rwa [hgeta, hgetb] at this
  have hmema : pa ∈ hs.searchScores query k rerank := by
    refine List.mem_of_mem_take (l := hs.searchScores query k rerank) (n := k) ?_
    rw [← hgeta]
    exact List.get_mem _ _ _
  have hmemb : pb ∈ hs.searchScores query k rerank := by
    refine List.mem_of_mem_take (l := hs.searchScores query k rerank) (n := k) ?_
    rw [← hgetb]
    exact List.get_mem _ _ _
  refine ⟨pa.2, pb.2, ?_, ?_, hord⟩
  · rwa [show (a, pa.2) = pa from by rw [← hpa1]]
  · rwa [show (b, pb.2) = pb from by rw [← hpb1]]

/-- A scored pair of the sorted list is an aggregated dict entry with its
combined score. -/
theorem searchScores_mem_entry (hs : HybridSearch) (query : String) (k : Nat) (rerank : Bool)
    {p : Document × ℚ} (hp : p ∈ hs.searchScores query k rerank) :
    ∃ kv ∈ docScores (hs.denseSearch query (if rerank then k * 3 else k))
        (hs.sparseSearch query (if rerank then k * 3 else k)),
      kv.2.doc = p.1 ∧
      p.2 = hs.dense_weight * kv.2.dense_score + hs.sparse_weight * kv.2.sparse_score := by
  rw [HybridSearch.searchScores] at hp
  exact finalScores_mem hs ((sortScoresDesc_perm _).mem_iff.mp hp)

/-- An aggregated entry can be looked up by the dedup key of its document. -/
theorem docScores_alookup_of_mem {dense sparse : List (Document × ℚ)}
    {kv : List Char × ScoreEntry} (hkv : kv ∈ docScores dense sparse) :
    alookup (dedupKey kv.2.doc) (docScores dense sparse) = some kv.2 := by
  have hco := docScores_coherent dense sparse kv hkv
  rw [hco]
  exact alookup_of_mem_nodup (docScores_keys_nodup dense sparse)
    (by rw [show (kv.1, kv.2) = kv from rfl]; exact hkv)

/-! ## Weight-boundary score identification -/

theorem searchScores_score_of_dense (hs : HybridSearch) (query : String) (k : Nat)
    (h1 : hs.dense_weight = 1) (h0 : hs.sparse_weight = 0)
    (hnd : ((hs.denseSearch query (k * 3)).map (fun p => dedupKey p.1)).Nodup)
    {a : Document} {sa ca : ℚ} (hmem : (a, sa) ∈ hs.denseSearch query (k * 3))
    (hsc : (a, ca) ∈ hs.searchScores query k true) : ca = sa := by
  rcases searchScores_mem_entry hs query k true hsc with ⟨kv, hkv, hdoc, hca⟩
  have hlook : alookup (dedupKey a) (docScores (hs.denseSearch query (k * 3))
      (hs.sparseSearch query (k * 3))) = some kv.2 := by
    have := docScores_alookup_of_mem hkv
    rwa [hdoc] at this
  have hent := docScores_entry_of_dense hnd hmem hlook
  have hca' : ca = hs.dense_weight * kv.2.dense_score + hs.sparse_weight * kv.2.sparse_score := hca
  rw [hca', h1, h0, hent.2, one_mul, zero_mul, add_zero]

theorem searchScores_score_of_sparse (hs : HybridSearch) (query : String) (k : Nat)
    (h1 : hs.dense_weight = 0) (h0 : hs.sparse_weight = 1)
    (hnd : ((hs.sparseSearch query (k * 3)).map (fun p => dedupKey p.1)).Nodup)
    {b : Document} {sb cb : ℚ} (hmem : (b, sb) ∈ hs.sparseSearch query (k * 3))
    (hsc : (b, cb) ∈ hs.searchScores query k true) : cb = sb := by
  rcases searchScores_mem_entry hs query k true hsc with ⟨kv, hkv, hdoc, hcb⟩
  have hlook : alookup (dedupKey b) (docScores (hs.denseSearch query (k * 3))
      (hs.sparseSearch query (k * 3))) = some kv.2 := by
    have := docScores_alookup_of_mem hkv
    rwa [hdoc] at this
  have hent := docScores_entry_of_sparse hnd hmem hlook
  have hcb' : cb = hs.dense_weight * kv.2.dense_score + hs.sparse_weight * kv.2.sparse_score := hcb
  rw [hcb', h1, h0, hent, zero_mul, one_mul, zero_add]

/-! ## Distinct keys in the output -/

theorem combineResults_pairwise_keys (hs : HybridSearch)
    (dense sparse : List (Document × ℚ)) (k : Nat) :
    (hs.combineResults dense sparse k).Pairwise (fun a b => dedupKey a ≠ dedupKey b) := by
  have hF := finalScores_pairwise_keys hs dense sparse
  have hS : (sortScoresDesc (hs.finalScores dense sparse)).Pairwise
      (fun a b => dedupKey a.1 ≠ dedupKey b.1) := by
    refine ((sortScoresDesc_perm _).pairwise_iff ?_).mpr hF
    intro x y h
    exact (h ·.symm)
  have hT := hS.sublist (List.take_sublist k _)
  rw [HybridSearch.combineResults, List.pairwise_map]
  exact hT

theorem search_pairwise_keys (hs : HybridSearch) (query : String) (k : Nat) (rerank : Bool) :
    (hs.search query k rerank).Pairwise (fun a b => dedupKey a ≠ dedupKey b) :=
  combineResults_pairwise_keys hs _ _ k

/-! ## Length bounds -/

theorem search_length_le (hs : HybridSearch) (query : String) (k : Nat) (rerank : Bool) :
    (hs.search query k rerank).length ≤ k := by
  rw [search_length_eq]
  exact min_le_left _ _

theorem search_length_of_enough (hs : HybridSearch) (query : String) (k : Nat) (rerank : Bool)
    (h : k ≤ ((hs.denseSearch query (if rerank then k * 3 else k) ++
        hs.sparseSearch query (if rerank then k * 3 else k)).map
      (fun p => dedupKey p.1)).toFinset.card) :
    (hs.search query k rerank).length = k := by
  rw [search_length_eq, searchScores_length]
  exact min_eq_left (h.trans (docScores_length_ge_union _ _))

/-! ## Sparse path facts -/

theorem argsortAsc_mem {scores : List ℚ} {i : Nat} (h : i ∈ argsortAsc scores) :
    i < scores.length := by
  rw [argsortAsc] at h
  exact List.mem_range.mp ((stableSort_perm _ (List.range scores.length)).mem_iff.mp h)

theorem normScore_pos {s : ℚ} (h : 0 < s) : 0 < s / (s + 1) := by
  have hs1 : 0 < s + 1 := by linarith
  exact div_pos h hs1

theorem normScore_lt_one {s : ℚ} (h : 0 < s) : s / (s + 1) < 1 := by
  have hs1 : 0 < s + 1 := by linarith
  rw [div_lt_one hs1]
  linarith

/-- Every sparse result originates at an in-range corpus index with a
strictly positive BM25 score, carries that index's document text and
metadata, and is scored by the saturating normalization. -/
theorem sparseSearch_mem (hs : HybridSearch) (query : String) (k : Nat)
    {p : Document × ℚ} (hp : p ∈ hs.sparseSearch query k) :
    ∃ idx : Nat, ∃ h : idx < (hs.bm25 (tokenize query)).length,
      0 < (hs.bm25 (tokenize query)).get ⟨idx, h⟩ ∧
      p.1 = { page_content := hs.documents.getD idx "",
              metadata := if idx < hs.metadatas.length then hs.metadatas.getD idx [] else [] } ∧
      p.2 = (hs.bm25 (tokenize query)).get ⟨idx, h⟩ /
        ((hs.bm25 (tokenize query)).get ⟨idx, h⟩ + 1) := by
  rw [HybridSearch.sparseSearch] at hp
  rcases List.mem_filterMap.mp hp with ⟨idx, hidx, hf⟩
  have hlt : idx < (hs.bm25 (tokenize query)).length :=
    argsortAsc_mem (List.mem_reverse.mp (List.mem_of_mem_take hidx))
  refine ⟨idx, hlt, ?_⟩
  have hgd : (hs.bm25 (tokenize query)).getD idx 0 =
      (hs.bm25 (tokenize query)).get ⟨idx, hlt⟩ := by
    rw [List.getD_eq_getElem?_getD, List.getElem?_eq_getElem hlt]
    rfl
  rw [hgd] at hf
  by_cases hpos : 0 < (hs.bm25 (tokenize query)).get ⟨idx, hlt⟩
  · rw [if_pos hpos, Option.some.injEq] at hf
    exact ⟨hpos, by rw [← hf], by rw [← hf]⟩
  · rw [if_neg hpos] at hf
    exact Option.noConfusion hf

/-- A query whose tokens give no positive BM25 score anywhere yields an
empty sparse result list, not an error. -/
theorem sparseSearch_eq_nil (hs : HybridSearch) (query : String) (k : Nat)
    (h : ∀ s ∈ hs.bm25 (tokenize query), s ≤ 0) : hs.sparseSearch query k = [] := by
  rw [HybridSearch.sparseSearch, List.filterMap_eq_nil_iff]
  intro idx hidx
  have hlt : idx < (hs.bm25 (tokenize query)).length :=
    argsortAsc_mem (List.mem_reverse.mp (List.mem_of_mem_take hidx))
  have hgd : (hs.bm25 (tokenize query)).getD idx 0 =
      (hs.bm25 (tokenize query)).get ⟨idx, hlt⟩ := by
    rw [List.getD_eq_getElem?_getD, List.getElem?_eq_getElem hlt]
    rfl
  rw [hgd, if_neg (not_lt.mpr (h _ (List.get_mem _ _ _)))]

/-! ## Dense path facts -/

theorem denseSearch_mem (hs : HybridSearch) (query : String) (k : Nat)
    {p : Document × ℚ} (hp : p ∈ hs.denseSearch query k) :
    p.1 ∈ hs.vector_store.similarity_search query k ∧
      p.2 = denseSimilarity (metaGetNumD p.1.metadata "distance" 0) := by
  rw [HybridSearch.denseSearch] at hp
  rcases List.mem_map.mp hp with ⟨doc, hdoc, he⟩
  exact ⟨by rw [← he]; exact hdoc, by rw [← he]⟩

theorem denseSimilarity_zero : denseSimilarity 0 = 1 := by
  rw [denseSimilarity]
  norm_num

theorem alookup_map_overwrite (m : Meta) (key : String) (v : Value) :
    alookup key (m.map (fun kv => if kv.1 = key then (kv.1, v) else kv)) =
      (alookup key m).map (fun _ => v) := by
  induction m with
  | nil => rfl
  | cons kv rest ih =>
    by_cases hk : kv.1 = key
    · simp [alookup_cons, hk]
    · simp [alookup_cons, hk, ih]

theorem metaSet_alookup_self (m : Meta) (key : String) (v : Value) :
    alookup key (metaSet m key v) = some v := by
  rw [metaSet]
  by_cases h : (alookup key m).isSome
  · rw [if_pos h, alookup_map_overwrite]
    cases hm : alookup key m with
    | some w => rfl
    | none => rw [hm] at h; simp at h
  · rw [if_neg h, alookup_append_of_none _ (Option.not_isSome_iff_eq_none.mp h),
      alookup_cons, if_pos rfl]

/-- When the raw query result has no `'distances'` field, every converted
document is annotated with distance 0. -/
theorem similarity_search_none_distance (vs : KoreanVectorStore) (query : String) (k : Nat)
    (h : (vs.collectionQuery query k).distances = none) :
    ∀ doc ∈ vs.similarity_search query k,
      alookup "distance" doc.metadata = some (Value.num 0) := by
  intro doc hdoc
  rw [KoreanVectorStore.similarity_search, h] at hdoc
  rcases List.mem_map.mp hdoc with ⟨trip, htrip, he⟩
  have hz : trip.2 = 0 :=
    List.eq_of_mem_replicate (List.of_mem_zip htrip).2
  rw [← he]
  show alookup "distance" (metaSet trip.1.2 "distance" (Value.num trip.2)) = some (Value.num 0)
  rw [hz, metaSet_alookup_self]

/-! ## Concrete evaluations

Reachability of each concrete engine from the constructor, and evaluations
of the pipeline on the concrete instances. -/

theorem tokQ : tokenize "q" = ["q"] := rfl

theorem buildW_ok : HybridSearch.build bmW vsW (6/10) = .ok hsW := rfl

theorem buildA_ok : HybridSearch.build bmA vsA (1/2) = .ok hsA := rfl

theorem buildB_ok : HybridSearch.build bmZ vsB (6/10) = .ok hsB := rfl

theorem buildC_ok : HybridSearch.build bmZ3 vsC 1 = .ok hsC := rfl

theorem buildD_ok : HybridSearch.build bmZ vsD 1 = .ok hsD := rfl

theorem buildE_ok : HybridSearch.build bmE vsE 0 = .ok hsE := rfl

theorem buildF_ok : HybridSearch.build bmZ1 vsF (6/10) = .ok hsF := rfl

theorem buildEmpty_err :
    HybridSearch.build bmW vsEmpty (6/10) = .error "벡터 스토어에 문서가 없습니다." := rfl

theorem densA : hsA.denseSearch "q" 6 = [(dBB1, 1/2), (dAA3, 1/4)] := by
  norm_num +decide [hsA, vsA, HybridSearch.denseSearch, KoreanVectorStore.similarity_search,
    metaSet, metaGetNumD, alookup, denseSimilarity, dBB1, dAA3]

theorem sparA : hsA.sparseSearch "q" 6 = [(dEaa, 1/4)] := by
  norm_num +decide [hsA, vsA, bmA, HybridSearch.sparseSearch, argsortAsc, stableSort,
    insertStable, alookup, dEaa, tokQ, List.range_succ, List.filterMap_cons]

theorem hsAdw : hsA.dense_weight = 1/2 := rfl

theorem hsAsw : hsA.sparse_weight = 1/2 := by norm_num [hsA]

theorem scoresA : hsA.searchScores "q" 2 true = [(dBB1, 1/4), (dAA3, 1/4)] := by
  rw [HybridSearch.searchScores]
  norm_num +decide [densA, sparA, hsAdw, hsAsw, sortScoresDesc, stableSort, insertStable,
    HybridSearch.finalScores, docScores, addDense, addSparse, updateVal, alookup, dedupKey,
    dBB1, dAA3, dEaa]

theorem searchA : hsA.search "q" 2 true = [dBB1, dAA3] := by
  rw [search_eq_searchScores, scoresA]
  rfl

theorem densB : hsB.denseSearch "q" 6 = [(dAA0, 1), (dAA1p2, 1/2)] := by
  norm_num +decide [hsB, vsB, HybridSearch.denseSearch, KoreanVectorStore.similarity_search,
    metaSet, metaGetNumD, alookup, denseSimilarity, dAA0, dAA1p2]

theorem sparB : hsB.sparseSearch "q" 6 = [] := by
  norm_num +decide [hsB, vsB, bmZ, HybridSearch.sparseSearch, argsortAsc, stableSort,
    insertStable, tokQ, List.range_succ, List.filterMap_cons]

theorem hsBdw : hsB.dense_weight = 6/10 := rfl

theorem hsBsw : hsB.sparse_weight = 2/5 := by norm_num [hsB]

theorem scoresB : hsB.searchScores "q" 2 true = [(dAA0, 3/10)] := by
  rw [HybridSearch.searchScores]
  norm_num +decide [densB, sparB, hsBdw, hsBsw, sortScoresDesc, stableSort, insertStable,
    HybridSearch.finalScores, docScores, addDense, addSparse, updateVal, alookup, dedupKey,
    dAA0, dAA1p2]

theorem lengthB : (hsB.search "q" 2 true).length = 1 := by
  rw [search_eq_searchScores, scoresB]
  rfl

theorem densC : hsC.denseSearch "q" 9 = [(dCaa, 9/10), (dCbb, 4/5), (dCaa3, 2/5)] := by
  norm_num +decide [hsC, vsC, HybridSearch.denseSearch, KoreanVectorStore.similarity_search,
    metaSet, metaGetNumD, alookup, denseSimilarity, dCaa, dCbb, dCaa3]

theorem sparC : hsC.sparseSearch "q" 9 = [] := by
  norm_num +decide [hsC, vsC, bmZ3, HybridSearch.sparseSearch, argsortAsc, stableSort,
    insertStable, tokQ, List.range_succ, List.filterMap_cons]

theorem hsCdw : hsC.dense_weight = 1 := rfl

theorem hsCsw : hsC.sparse_weight = 0 := by norm_num [hsC]

theorem scoresC : hsC.searchScores "q" 3 true = [(dCbb, 4/5), (dCaa, 2/5)] := by
  rw [HybridSearch.searchScores]
  norm_num +decide [densC, sparC, hsCdw, hsCsw, sortScoresDesc, stableSort, insertStable,
    HybridSearch.finalScores, docScores, addDense, addSparse, updateVal, alookup, dedupKey,
    dCaa, dCbb, dCaa3]

theorem searchC : hsC.search "q" 3 true = [dCbb, dCaa] := by
  rw [search_eq_searchScores, scoresC]
  rfl

theorem densD : hsD.denseSearch "q" 3 = [(dAA0, 1), (dBB1, 1/2)] := by
  norm_num +decide [hsD, vsD, HybridSearch.denseSearch, KoreanVectorStore.similarity_search,
    metaSet, metaGetNumD, alookup, denseSimilarity, dAA0, dBB1]

theorem densD6 : hsD.denseSearch "q" 6 = [(dAA0, 1), (dBB1, 1/2)] := by
  norm_num +decide [hsD, vsD, HybridSearch.denseSearch, KoreanVectorStore.similarity_search,
    metaSet, metaGetNumD, alookup, denseSimilarity, dAA0, dBB1]

theorem sparD6 : hsD.sparseSearch "q" 6 = [] := by
  norm_num +decide [hsD, vsD, bmZ, HybridSearch.sparseSearch, argsortAsc, stableSort,
    insertStable, tokQ, List.range_succ, List.filterMap_cons]

theorem sparE : hsE.sparseSearch "q" 3 = [(dEaa, 2/3), (dEbb, 1/2)] := by
  norm_num +decide [hsE, vsE, bmE, HybridSearch.sparseSearch, argsortAsc, stableSort,
    insertStable, alookup, dEaa, dEbb, tokQ, List.range_succ, List.filterMap_cons]

theorem densF : hsF.denseSearch "q" 5 = [(dAA0, 1)] := by
  norm_num +decide [hsF, vsF, HybridSearch.denseSearch, KoreanVectorStore.similarity_search,
    metaSet, metaGetNumD, alookup, denseSimilarity, dAA0]

theorem densW : hsW.denseSearch "q" 2 = [(docWd, 1/2)] := by
  norm_num +decide [hsW, vsW, HybridSearch.denseSearch, KoreanVectorStore.similarity_search,
    metaSet, metaGetNumD, alookup, denseSimilarity, docWd]

theorem densW6 : hsW.denseSearch "q" 6 = [(docWd, 1/2)] := by
  norm_num +decide [hsW, vsW, HybridSearch.denseSearch, KoreanVectorStore.similarity_search,
    metaSet, metaGetNumD, alookup, denseSimilarity, docWd]

theorem sparW : hsW.sparseSearch "q" 3 = [(docW, 3/4)] := by
  norm_num +decide [hsW, vsW, bmW, HybridSearch.sparseSearch, argsortAsc, stableSort,
    insertStable, alookup, docW, tokQ, List.range_succ, List.filterMap_cons]

theorem sparW6 : hsW.sparseSearch "q" 6 = [(docW, 3/4)] := by
  norm_num +decide [hsW, vsW, bmW, HybridSearch.sparseSearch, argsortAsc, stableSort,
    insertStable, alookup, docW, tokQ, List.range_succ, List.filterMap_cons]

theorem hsWdw : hsW.dense_weight = 6/10 := rfl

theorem hsWsw : hsW.sparse_weight = 2/5 := by norm_num [hsW]

theorem scoresW : hsW.searchScores "q" 2 true = [(docWd, 3/5)] := by
  rw [HybridSearch.searchScores]
  norm_num +decide [densW6, sparW6, hsWdw, hsWsw, sortScoresDesc, stableSort, insertStable,
    HybridSearch.finalScores, docScores, addDense, addSparse, updateVal, alookup, dedupKey,
    docW, docWd]

theorem searchW2 : hsW.search "q" 2 true = [docWd] := by
  rw [search_eq_searchScores, scoresW]
  rfl

theorem filterW : hsW.searchWithFilter "q" 1 (some [("page", Value.num 12)]) = [docWd] := by
  rw [HybridSearch.searchWithFilter]
  norm_num +decide [searchW2, alookup, docWd, List.filter_cons]

theorem dsW1 : docScores [(dAA, 2)] [(dAB, 3)] =
    [(['a', 'a'], ⟨dAA, 2, 0⟩), (['a', 'b'], ⟨dAB, 0, 3⟩)] := by
  norm_num +decide [docScores, addDense, addSparse, updateVal, alookup, dedupKey, dAA, dAB]

theorem lastW1 : lastScoreD [(dAA, 2)] ['a', 'a'] = 2 := by
  norm_num +decide [lastScoreD, matchesKey, dedupKey, dAA, List.filter_cons]

theorem lastW2 : lastScoreD [(dAB, 3)] ['a', 'a'] = 0 := by
  norm_num +decide [lastScoreD, matchesKey, dedupKey, dAB, List.filter_cons]

theorem dsCex : docScores [(dAA, 2), (dAA, 1)] [] = [(['a', 'a'], ⟨dAA, 1, 0⟩)] := by
  norm_num +decide [docScores, addDense, addSparse, updateVal, alookup, dedupKey, dAA]

theorem maxCex : maxScoreD [(dAA, 2), (dAA, 1)] ['a', 'a'] = 2 := by
  norm_num +decide [maxScoreD, matchesKey, dedupKey, dAA, List.filter_cons, max_def]

/-! ## The claims -/

/-- C1 counterexample: fused by `_combine_results`, a dense list that scores
the same key twice (scores 2 then 1) leaves `dense_score = 1`, the last
value written, while the maximum dense similarity seen for the key is 2.
The dict assignments overwrite, they do not take the maximum, so the claim
as stated is false. -/
theorem fusion_scores_not_max :
    docScores [(dAA, 2), (dAA, 1)] [] = [(['a', 'a'], ⟨dAA, 1, 0⟩)] ∧
    maxScoreD [(dAA, 2), (dAA, 1)] ['a', 'a'] = 2 ∧
    (1 : ℚ) ≠ 2 :=
  ⟨dsCex, maxCex, by norm_num⟩

/-- C1 (amended): for every pair of dense and sparse result lists fused by
`_combine_results` and for each distinct deduplication key, the dense
component used in the combined score is the LAST dense similarity seen for
that key (0 if the key is absent from dense results), the sparse component
is the LAST sparse score seen for that key (0 if absent), and the combined
score equals `dense_weight * dense_component + sparse_weight *
sparse_component`. -/
theorem fusion_scores_last_write :
    ∀ (hs : HybridSearch) (dense sparse : List (Document × ℚ)),
      (∀ kv ∈ docScores dense sparse,
        kv.2.dense_score = lastScoreD dense kv.1 ∧
        kv.2.sparse_score = lastScoreD sparse kv.1) ∧
      hs.finalScores dense sparse = (docScores dense sparse).map
        (fun kv => (kv.2.doc,
          hs.dense_weight * kv.2.dense_score + hs.sparse_weight * kv.2.sparse_score)) := by
  intro hs dense sparse
  refine ⟨?_, rfl⟩
  intro kv hkv
  have hl : alookup kv.1 (docScores dense sparse) = some kv.2 :=
    alookup_of_mem_nodup (docScores_keys_nodup dense sparse)
      (by rw [show (kv.1, kv.2) = kv from rfl]; exact hkv)
  exact docScores_alookup_scores hl

/-- C1 witness: the amended theorem evaluated at a concrete fused pair. -/
theorem fusion_scores_last_write_witness :
    ((['a', 'a'], (⟨dAA, 2, 0⟩ : ScoreEntry)) ∈ docScores [(dAA, 2)] [(dAB, 3)]) ∧
    (⟨dAA, 2, 0⟩ : ScoreEntry).dense_score = lastScoreD [(dAA, 2)] ['a', 'a'] ∧
    (⟨dAA, 2, 0⟩ : ScoreEntry).sparse_score = lastScoreD [(dAB, 3)] ['a', 'a'] := by
  have hmem : (['a', 'a'], (⟨dAA, 2, 0⟩ : ScoreEntry)) ∈ docScores [(dAA, 2)] [(dAB, 3)] := by
    rw [dsW1]
    exact List.mem_cons_self _ _
  have h := (fusion_scores_last_write hsW [(dAA, 2)] [(dAB, 3)]).1 _ hmem
  exact ⟨hmem, h.1, h.2⟩

/-- C2 counterexample: at `hsA` the two returned documents tie at combined
score 1/4; the corpus inserts "aa" (the text of `dAA3`) before "bb" (the
text of `dBB1`), yet `search` returns "bb" first.  Ties are broken by the
order keys enter the fusion dict (dense result order), not by corpus
insertion order, so the claim as stated is false. -/
theorem search_tiebreak_not_corpus_order :
    hsA.documents = ["aa", "bb"] ∧
    dAA3.page_content = "aa" ∧ dBB1.page_content = "bb" ∧
    hsA.searchScores "q" 2 true = [(dBB1, 1/4), (dAA3, 1/4)] ∧
    hsA.search "q" 2 true = [dBB1, dAA3] :=
  ⟨rfl, rfl, rfl, scoresA, searchA⟩

/-- C2 (amended): for every engine, query, `k` and rerank flag, the list
`search` truncates is ordered by combined score descending; ties are broken
by the order in which keys first entered the fusion dict (dense results in
retrieval order, then new sparse keys), captured by filter-stability of the
sort against the fusion-dict order; and `search` returns the first `k`
documents of that list.  Repeated identical calls return identical results
because the whole pipeline is a pure function of the engine and query. -/
theorem search_sorted_stable_deterministic :
    ∀ (hs : HybridSearch) (query : String) (k : Nat) (rerank : Bool),
      (hs.searchScores query k rerank).Pairwise (fun a b => b.2 ≤ a.2) ∧
      (∀ s : ℚ, (hs.searchScores query k rerank).filter (fun x => decide (x.2 = s)) =
        (hs.finalScores (hs.denseSearch query (if rerank then k * 3 else k))
          (hs.sparseSearch query (if rerank then k * 3 else k))).filter
            (fun x => decide (x.2 = s))) ∧
      hs.search query k rerank = ((hs.searchScores query k rerank).take k).map Prod.fst :=
  fun hs query k rerank =>
    ⟨searchScores_pairwise hs query k rerank,
     fun s => sortScoresDesc_filter _ s,
     search_eq_searchScores hs query k rerank⟩

/-- C3 counterexample: `hsB`'s corpus holds 2 documents, both fetched by the
dense path with strictly positive similarity (1 and 1/2) — so both carry
non-zero combined evidence — yet `search` with `k = 2` returns a single
document, because the two share their deduplication key. -/
theorem search_k_bound_collision_cex :
    hsB.documents.length = 2 ∧
    hsB.denseSearch "q" 6 = [(dAA0, 1), (dAA1p2, 1/2)] ∧
    (0 : ℚ) < 1 ∧ (0 : ℚ) < 1/2 ∧
    (hsB.search "q" 2 true).length = 1 :=
  ⟨rfl, densB, by norm_num, by norm_num, lengthB⟩

/-- C3 (amended): `search(query, k)` always returns at most `k` documents;
it returns exactly `k` whenever the candidates fetched for the query by
either path — dense or sparse — include at least `k` pairwise-distinct
deduplication keys. -/
theorem search_k_bound :
    ∀ (hs : HybridSearch) (query : String) (k : Nat) (rerank : Bool),
      (hs.search query k rerank).length ≤ k ∧
      (k ≤ ((hs.denseSearch query (if rerank then k * 3 else k) ++
            hs.sparseSearch query (if rerank then k * 3 else k)).map
          (fun p => dedupKey p.1)).toFinset.card →
        (hs.search query k rerank).length = k) :=
  fun hs query k rerank =>
    ⟨search_length_le hs query k rerank, search_length_of_enough hs query k rerank⟩

/-- C3 witness: the amended theorem evaluated at a concrete engine whose
fetched candidates carry two distinct dedup keys, with `k = 2`. -/
theorem search_k_bound_witness :
    (hsD.search "q" 2 true).length ≤ 2 ∧
    2 ≤ ((hsD.denseSearch "q" (if true then 2 * 3 else 2) ++
        hsD.sparseSearch "q" (if true then 2 * 3 else 2)).map
      (fun p => dedupKey p.1)).toFinset.card ∧
    (hsD.search "q" 2 true).length = 2 := by
  have hcard : 2 ≤ ((hsD.denseSearch "q" (if true then 2 * 3 else 2) ++
      hsD.sparseSearch "q" (if true then 2 * 3 else 2)).map
      (fun p => dedupKey p.1)).toFinset.card := by
    show 2 ≤ ((hsD.denseSearch "q" 6 ++ hsD.sparseSearch "q" 6).map
      (fun p => dedupKey p.1)).toFinset.card
    rw [densD6, sparD6]
    decide
  exact ⟨(search_k_bound hsD "q" 2 true).1, hcard, (search_k_bound hsD "q" 2 true).2 hcard⟩

/-- C4: for every query, every sparse result corresponds to a corpus index
whose raw BM25 score is strictly positive — zero-score documents are
excluded entirely and contribute no sparse evidence — and its score is the
normalization `s / (s + 1)` of that raw score, which lies in the open
interval (0, 1). -/
theorem sparse_path_positive_normalized :
    ∀ (hs : HybridSearch) (query : String) (k : Nat) (p : Document × ℚ),
      p ∈ hs.sparseSearch query k →
      ∃ idx : Nat, ∃ h : idx < (hs.bm25 (tokenize query)).length,
        0 < (hs.bm25 (tokenize query)).get ⟨idx, h⟩ ∧
        p.1.page_content = hs.documents.getD idx "" ∧
        p.2 = (hs.bm25 (tokenize query)).get ⟨idx, h⟩ /
          ((hs.bm25 (tokenize query)).get ⟨idx, h⟩ + 1) ∧
        0 < p.2 ∧ p.2 < 1 := by
  intro hs query k p hp
  rcases sparseSearch_mem hs query k hp with ⟨idx, h, hpos, hdoc, hsc⟩
  refine ⟨idx, h, hpos, by rw [hdoc], hsc, ?_, ?_⟩
  · rw [hsc]
    exact normScore_pos hpos
  · rw [hsc]
    exact normScore_lt_one hpos

/-- C4 witness: the theorem evaluated at a concrete sparse result whose raw
score is 3 and whose normalized score is 3/4. -/
theorem sparse_path_positive_normalized_witness :
    ((docW, (3 : ℚ)/4) ∈ hsW.sparseSearch "q" 3) ∧
    (∃ idx : Nat, ∃ h : idx < (hsW.bm25 (tokenize "q")).length,
      0 < (hsW.bm25 (tokenize "q")).get ⟨idx, h⟩ ∧
      docW.page_content = hsW.documents.getD idx "" ∧
      ((docW, (3 : ℚ)/4) : Document × ℚ).2 = (hsW.bm25 (tokenize "q")).get ⟨idx, h⟩ /
        ((hsW.bm25 (tokenize "q")).get ⟨idx, h⟩ + 1) ∧
      0 < ((docW, (3 : ℚ)/4) : Document × ℚ).2 ∧
      ((docW, (3 : ℚ)/4) : Document × ℚ).2 < 1) := by
  have hmem : (docW, (3 : ℚ)/4) ∈ hsW.sparseSearch "q" 3 := by
    rw [sparW]
    exact List.mem_singleton.mpr rfl
  exact ⟨hmem, sparse_path_positive_normalized hsW "q" 3 _ hmem⟩

/-- C5: building from a store with an empty document list fails fast with
the configuration `ValueError` — and only then; querying a successfully
built engine with a query that earns no positive BM25 score anywhere
returns an empty sparse result and a valid dense-only ranking rather
than an error (the whole query pipeline is total). -/
theorem build_empty_fails_query_total :
    ∀ (bm : List (List String) → List String → List ℚ) (vs : KoreanVectorStore) (dw : ℚ),
      ((∃ msg, HybridSearch.build bm vs dw = .error msg) ↔
        vs.collectionGet.documents = []) ∧
      (∀ hs, HybridSearch.build bm vs dw = .ok hs →
        ∀ (query : String) (k : Nat),
          (∀ s ∈ hs.bm25 (tokenize query), s ≤ 0) →
          hs.sparseSearch query k = [] ∧
          hs.search query k true =
            hs.combineResults (hs.denseSearch query (k * 3)) [] k) := by
  intro bm vs dw
  constructor
  · constructor
    · rintro ⟨msg, hmsg⟩
      by_cases he : vs.collectionGet.documents.isEmpty
      · exact List.isEmpty_iff.mp he
      · rw [HybridSearch.build] at hmsg
        rw [if_neg (by simpa using he)] at hmsg
        exact Except.noConfusion hmsg
    · intro he
      refine ⟨"벡터 스토어에 문서가 없습니다.", ?_⟩
      rw [HybridSearch.build, if_pos (by simp [he])]
  · intro hs _ query k hz
    have hnil := sparseSearch_eq_nil hs query k hz
    refine ⟨hnil, ?_⟩
    show hs.combineResults (hs.denseSearch query (k * 3)) (hs.sparseSearch query (k * 3)) k = _
    rw [show hs.sparseSearch query (k * 3) = [] from sparseSearch_eq_nil hs query (k * 3) hz]

/-- C5 witness: the empty store fails with the configuration error, and a
built engine whose BM25 scores are all zero for the query returns an empty
sparse result and the dense-only ranking. -/
theorem build_empty_fails_query_total_witness :
    (∃ msg, HybridSearch.build bmW vsEmpty (6/10) = .error msg) ∧
    vsEmpty.collectionGet.documents = [] ∧
    HybridSearch.build bmZ vsB (6/10) = .ok hsB ∧
    (∀ s ∈ hsB.bm25 (tokenize "q"), s ≤ 0) ∧
    hsB.sparseSearch "q" 2 = [] ∧
    hsB.search "q" 2 true = hsB.combineResults (hsB.denseSearch "q" (2 * 3)) [] 2 := by
  have hz : ∀ s ∈ hsB.bm25 (tokenize "q"), s ≤ 0 := by
    intro s hsmem
    have : s ∈ [(0 : ℚ), 0] := hsmem
    rcases List.mem_cons.mp this with h | h
    · rw [h]
    · rw [List.mem_singleton.mp h]
  have h2 := (build_empty_fails_query_total bmZ vsB (6/10)).2 hsB buildB_ok "q" 2 hz
  exact ⟨⟨"벡터 스토어에 문서가 없습니다.", buildEmpty_err⟩, rfl, buildB_ok, hz, h2.1, h2.2⟩

/-- C6: the dense retriever scores each returned chunk by
`denseSimilarity (distance) = 1 / (1 + distance)` of its reported distance
(default 0); the transform maps 0 to 1, is strictly decreasing on
non-negative distances, and its values lie in (0, 1]. -/
theorem dense_similarity_transform :
    denseSimilarity 0 = 1 ∧
    (∀ d1 d2 : ℚ, 0 ≤ d1 → d1 < d2 → denseSimilarity d2 < denseSimilarity d1) ∧
    (∀ d : ℚ, 0 ≤ d → 0 < denseSimilarity d ∧ denseSimilarity d ≤ 1) ∧
    (∀ (hs : HybridSearch) (query : String) (k : Nat) (p : Document × ℚ),
      p ∈ hs.denseSearch query k →
      p.2 = denseSimilarity (metaGetNumD p.1.metadata "distance" 0)) := by
  refine ⟨denseSimilarity_zero, ?_, ?_, ?_⟩
  · intro d1 d2 h0 hlt
    rw [denseSimilarity, denseSimilarity]
    exact div_lt_div_of_pos_left one_pos (by linarith) (by linarith)
  · intro d h0
    rw [denseSimilarity]
    constructor
    · exact div_pos one_pos (by linarith)
    · rw [div_le_one (by linarith)]
      linarith
  · intro hs query k p hp
    exact (denseSearch_mem hs query k hp).2

/-- C6 witness: the transform evaluated at distances 0 and 1, and the dense
path of a concrete engine scoring its returned chunk (distance 1) with
similarity 1/2. -/
theorem dense_similarity_transform_witness :
    ((0 : ℚ) ≤ 0 ∧ (0 : ℚ) < 1 ∧ denseSimilarity 1 < denseSimilarity 0) ∧
    ((0 : ℚ) ≤ 1 ∧ 0 < denseSimilarity 1 ∧ denseSimilarity 1 ≤ 1) ∧
    ((docWd, (1 : ℚ)/2) ∈ hsW.denseSearch "q" 2 ∧
      ((docWd, (1 : ℚ)/2) : Document × ℚ).2 =
        denseSimilarity (metaGetNumD docWd.metadata "distance" 0)) := by
  have hmem : (docWd, (1 : ℚ)/2) ∈ hsW.denseSearch "q" 2 := by
    rw [densW]
    exact List.mem_singleton.mpr rfl
  refine ⟨⟨le_refl 0, by norm_num, ?_⟩, ⟨by norm_num, ?_, ?_⟩, hmem, ?_⟩
  · exact (dense_similarity_transform.2.1) 0 1 (le_refl 0) (by norm_num)
  · exact ((dense_similarity_transform.2.2.1) 1 (by norm_num)).1
  · exact ((dense_similarity_transform.2.2.1) 1 (by norm_num)).2
  · exact (dense_similarity_transform.2.2.2) hsW "q" 2 _ hmem

/-- C7: with a non-empty filter dict, `search_with_filter` fetches the `2k`
fused results, keeps exactly the documents whose metadata matches every
filter pair, and truncates to `k`; every returned document matches the
whole filter, at most `k` are returned (fewer is a valid outcome, not an
error), and nothing outside the fused results is ever added. -/
theorem filtered_search_exact_match :
    ∀ (hs : HybridSearch) (query : String) (k : Nat) (fd : Meta), fd ≠ [] →
      hs.searchWithFilter query k (some fd) =
        ((hs.search query (k * 2) true).filter
          (fun doc => fd.all (fun kv => decide (alookup kv.1 doc.metadata = some kv.2)))).take k ∧
      (∀ doc ∈ hs.searchWithFilter query k (some fd),
        ∀ kv ∈ fd, alookup kv.1 doc.metadata = some kv.2) ∧
      (hs.searchWithFilter query k (some fd)).length ≤ k ∧
      (∀ doc ∈ hs.searchWithFilter query k (some fd), doc ∈ hs.search query (k * 2) true) := by
  intro hs query k fd hfd
  have heq : hs.searchWithFilter query k (some fd) =
      ((hs.search query (k * 2) true).filter
        (fun doc => fd.all (fun kv => decide (alookup kv.1 doc.metadata = some kv.2)))).take k := by
    cases fd with
    | nil => exact absurd rfl hfd
    | cons kv rest => rfl
  refine ⟨heq, ?_, ?_, ?_⟩
  · intro doc hdoc kv hkv
    rw [heq] at hdoc
    have hfil := List.mem_of_mem_take hdoc
    have hall := List.of_mem_filter hfil
    have := List.all_eq_true.mp hall kv hkv
    exact of_decide_eq_true this
  · rw [heq]
    exact List.length_take_le _ _
  · intro doc hdoc
    rw [heq] at hdoc
    exact List.mem_of_mem_filter (List.mem_of_mem_take hdoc)

/-- C7 witness: the theorem evaluated at a concrete engine with a one-pair
filter that the single fused result matches. -/
theorem filtered_search_exact_match_witness :
    ([("page", Value.num 12)] : Meta) ≠ [] ∧
    hsW.searchWithFilter "q" 1 (some [("page", Value.num 12)]) = [docWd] ∧
    (∀ doc ∈ hsW.searchWithFilter "q" 1 (some [("page", Value.num 12)]),
      ∀ kv ∈ ([("page", Value.num 12)] : Meta), alookup kv.1 doc.metadata = some kv.2) ∧
    (hsW.searchWithFilter "q" 1 (some [("page", Value.num 12)])).length ≤ 1 := by
  have hne : ([("page", Value.num 12)] : Meta) ≠ [] := by simp
  have h := filtered_search_exact_match hsW "q" 1 [("page", Value.num 12)] hne
  exact ⟨hne, filterW, h.2.1, h.2.2.1⟩

/-- C8 counterexample: `hsC` has `dense_weight = 1`, and its dense candidates
contain two chunks with the same 100-character prefix; fusion overwrites the
colliding key's dense score with the later (smaller) one, so `search`
returns "bb" (similarity 4/5) ahead of "aa" (similarity 9/10): the output
order does not match the pure dense-similarity order of the fetched
candidates, and the claim as stated is false. -/
theorem weight_boundary_order_cex :
    hsC.dense_weight = 1 ∧ ¬ denseOrderOK hsC "q" 3 := by
  refine ⟨rfl, ?_⟩
  intro hOK
  have hma : (dCbb, (4 : ℚ)/5) ∈ hsC.denseSearch "q" (3 * 3) := by
    show (dCbb, (4 : ℚ)/5) ∈ hsC.denseSearch "q" 9
    rw [densC]
    exact List.mem_cons_of_mem _ (List.mem_cons_self _ _)
  have hmb : (dCaa, (9 : ℚ)/10) ∈ hsC.denseSearch "q" (3 * 3) := by
    show (dCaa, (9 : ℚ)/10) ∈ hsC.denseSearch "q" 9
    rw [densC]
    exact List.mem_cons_self _ _
  have hprec : precedes (hsC.search "q" 3 true) dCbb dCaa := by
    refine ⟨0, 1, by norm_num, ?_, ?_⟩
    · rw [searchC]
      rfl
    · rw [searchC]
      rfl
  have := hOK dCbb (4/5) dCaa (9/10) hma hmb hprec
  norm_num at this

/-- C8 (amended): when `dense_weight = 1` (so `sparse_weight = 0`) and the
fetched dense candidates have pairwise-distinct deduplication keys, any two
dense candidates returned by `search` appear in an order consistent with
their dense similarities; symmetrically, with `dense_weight = 0` and
pairwise-distinct sparse candidate keys, returned sparse candidates appear
in an order consistent with their BM25 scores. -/
theorem weight_boundary_order :
    ∀ (hs : HybridSearch) (query : String) (k : Nat),
      (hs.dense_weight = 1 → hs.sparse_weight = 0 →
        ((hs.denseSearch query (k * 3)).map (fun p => dedupKey p.1)).Nodup →
        denseOrderOK hs query k) ∧
      (hs.dense_weight = 0 → hs.sparse_weight = 1 →
        ((hs.sparseSearch query (k * 3)).map (fun p => dedupKey p.1)).Nodup →
        sparseOrderOK hs query k) := by
  intro hs query k
  constructor
  · intro h1 h0 hnd a sa b sb hma hmb hprec
    rcases search_precedes_scores hs query k true hprec with ⟨ca, cb, hca, hcb, hord⟩
    rw [← searchScores_score_of_dense hs query k h1 h0 hnd hma hca,
      ← searchScores_score_of_dense hs query k h1 h0 hnd hmb hcb]
    exact hord
  · intro h1 h0 hnd a sa b sb hma hmb hprec
    rcases search_precedes_scores hs query k true hprec with ⟨ca, cb, hca, hcb, hord⟩
    rw [← searchScores_score_of_sparse hs query k h1 h0 hnd hma hca,
      ← searchScores_score_of_sparse hs query k h1 h0 hnd hmb hcb]
    exact hord

/-- C8 witness: the amended theorem at two concrete engines, one pure-dense
with distinct dense keys and one pure-sparse with distinct sparse keys. -/
theorem weight_boundary_order_witness :
    (hsD.dense_weight = 1 ∧ hsD.sparse_weight = 0 ∧
      ((hsD.denseSearch "q" (1 * 3)).map (fun p => dedupKey p.1)).Nodup ∧
      denseOrderOK hsD "q" 1) ∧
    (hsE.dense_weight = 0 ∧ hsE.sparse_weight = 1 ∧
      ((hsE.sparseSearch "q" (1 * 3)).map (fun p => dedupKey p.1)).Nodup ∧
      sparseOrderOK hsE "q" 1) := by
  have hndD : ((hsD.denseSearch "q" (1 * 3)).map (fun p => dedupKey p.1)).Nodup := by
    show ((hsD.denseSearch "q" 3).map (fun p => dedupKey p.1)).Nodup
    rw [densD]
    decide
  have hndE : ((hsE.sparseSearch "q" (1 * 3)).map (fun p => dedupKey p.1)).Nodup := by
    show ((hsE.sparseSearch "q" 3).map (fun p => dedupKey p.1)).Nodup
    rw [sparE]
    decide
  have hswD : hsD.sparse_weight = 0 := by norm_num [hsD]
  have hswE : hsE.sparse_weight = 1 := by norm_num [hsE]
  exact ⟨⟨rfl, hswD, hndD, (weight_boundary_order hsD "q" 1).1 rfl hswD hndD⟩,
    ⟨rfl, hswE, hndE, (weight_boundary_order hsE "q" 1).2 rfl hswE hndE⟩⟩

/-- C9: deduplication keys each document by the first 100 characters of its
text; any two chunks sharing that prefix share their key and are fused into
one aggregation entry, so neither `_combine_results` nor `search` ever
returns two documents with equal 100-character prefixes. -/
theorem dedup_first100_prefix :
    (∀ d : Document, dedupKey d = d.page_content.data.take 100) ∧
    (∀ (hs : HybridSearch) (dense sparse : List (Document × ℚ)) (k : Nat),
      (hs.combineResults dense sparse k).Pairwise (fun a b => dedupKey a ≠ dedupKey b)) ∧
    (∀ (hs : HybridSearch) (query : String) (k : Nat) (rerank : Bool),
      (hs.search query k rerank).Pairwise (fun a b => dedupKey a ≠ dedupKey b)) :=
  ⟨fun _ => rfl, combineResults_pairwise_keys, search_pairwise_keys⟩

/-- C10: a chunk whose metadata carries no `'distance'` annotation is scored
with distance 0, hence the maximal similarity 1; in particular, when the
raw query result has no `'distances'` field at all, every returned chunk is
annotated with distance 0 and receives dense similarity 1. -/
theorem missing_distance_full_similarity :
    ∀ (hs : HybridSearch) (query : String) (k : Nat),
      ((hs.vector_store.collectionQuery query k).distances = none →
        ∀ p ∈ hs.denseSearch query k,
          alookup "distance" p.1.metadata = some (Value.num 0) ∧ p.2 = 1) ∧
      (∀ p ∈ hs.denseSearch query k,
        alookup "distance" p.1.metadata = none → p.2 = 1) := by
  intro hs query k
  constructor
  · intro hnone p hp
    have hd := denseSearch_mem hs query k hp
    have h0 := similarity_search_none_distance _ query k hnone p.1 hd.1
    refine ⟨h0, ?_⟩
    have hget : metaGetNumD p.1.metadata "distance" 0 = 0 := by
      rw [metaGetNumD, h0]
    rw [hd.2, hget, denseSimilarity_zero]
  · intro p hp hnone2
    have hd := denseSearch_mem hs query k hp
    have hget : metaGetNumD p.1.metadata "distance" 0 = 0 := by
      rw [metaGetNumD, hnone2]
    rw [hd.2, hget, denseSimilarity_zero]

/-- C10 witness: a store whose raw query result lacks the `'distances'`
field; the returned chunk is annotated with distance 0 and scored 1. -/
theorem missing_distance_full_similarity_witness :
    (hsF.vector_store.collectionQuery "q" 5).distances = none ∧
    ((dAA0, (1 : ℚ)) ∈ hsF.denseSearch "q" 5) ∧
    alookup "distance" dAA0.metadata = some (Value.num 0) ∧
    ((dAA0, (1 : ℚ)) : Document × ℚ).2 = 1 := by
  have hmem : (dAA0, (1 : ℚ)) ∈ hsF.denseSearch "q" 5 := by
    rw [densF]
    exact List.mem_singleton.mpr rfl
  have h := (missing_distance_full_similarity hsF "q" 5).1 rfl _ hmem
  exact ⟨rfl, hmem, h.1, h.2⟩
